import Mathlib

/-!
Verification of the client-side forensics session orchestrator of the
Img_Provenance (FakeLineage) frontend.

The development shallowly embeds, from the TypeScript source:
* the wire/data types of `src/frontend/src/types.ts`;
* the zustand session store of `src/frontend/src/store/appStore.ts`
  (initial state, field setters, `resetSession`);
* the single-image pipeline `runAnalysis` and the verdict derivation of
  `AnalysisPage` (`src/frontend/src/pages/SocialTracker.tsx`, second document);
* the batch queue processor `runBatch`, its per-item updates and its
  on-demand counters (`BatchAnalysisPage`, third document of the same file);
* the BFS layout helper `graphToFlow` of
  `src/frontend/src/pages/ProvenanceGraph.tsx`.

TypeScript `number` is modelled as `ℚ` (all comparisons in the embedded code
are order comparisons at exactly representable constants), `string` as
`String`, optional fields as `Option`, thrown exceptions as `Except`.
Asynchronous `await` chains are sequential in the source (one call in flight
at a time), so they are embedded as plain sequential state passing; the
list of issued API calls is returned alongside the state so that absence of
network traffic is expressible.
-/

namespace ImgProvenance

/-- Verdict labels (`types.ts`, `AnalysisResult.verdict`). -/
inductive Verdict where
  | AUTHENTIC
  | SUSPICIOUS
  | MANIPULATED
  | DEEPFAKE
deriving DecidableEq, Repr

/-- `types.ts` `ImageUploadResponse`. -/
structure ImageUploadResponse where
  image_id : String
  filename : String
  file_size : ℚ
  upload_time : String
  width : ℚ
  height : ℚ
  format : String
  phash : String
  dhash : String
  ahash : String
deriving DecidableEq, Repr

/-- `types.ts` `DeepfakeScore`. -/
structure DeepfakeScore where
  overall_score : ℚ
  face_swap_score : ℚ
  gan_artifact_score : ℚ
  compression_inconsistency : ℚ
  noise_inconsistency : ℚ
  ela_score : ℚ
  is_deepfake : Bool
  confidence_label : String
  model_version : String
deriving DecidableEq, Repr

/-- `types.ts` `ManipulationRegion`. -/
structure ManipulationRegion where
  x : ℚ
  y : ℚ
  width : ℚ
  height : ℚ
  confidence : ℚ
  type : String
deriving DecidableEq, Repr

/-- `types.ts` `MetadataAnalysis`. -/
structure MetadataAnalysis where
  image_id : String
  has_exif : Bool
  camera_make : Option String
  camera_model : Option String
  software : Option String
  datetime_original : Option String
  gps_latitude : Option ℚ
  gps_longitude : Option ℚ
  image_width : Option ℚ
  image_height : Option ℚ
  color_space : Option String
  compression_quality : Option ℚ
  steganography_detected : Bool
  lsb_anomaly_score : ℚ
  metadata_stripped : Bool
  consistency_score : ℚ
  suspicious_flags : List String
deriving DecidableEq, Repr

/-- `types.ts` `ProvenanceNode`. -/
structure ProvenanceNode where
  id : String
  image_id : String
  filename : String
  timestamp : String
  platform : String
  deepfake_score : ℚ
  is_root : Bool
  manipulation_type : Option String
  phash : String
  thumbnail_url : String
deriving DecidableEq, Repr

/-- `types.ts` `ProvenanceEdge`. -/
structure ProvenanceEdge where
  source : String
  target : String
  relationship : String
  similarity_score : ℚ
  time_delta_hours : ℚ
deriving DecidableEq, Repr

/-- `types.ts` `ProvenanceGraph`. -/
structure ProvenanceGraph where
  image_id : String
  root_node_id : String
  nodes : List ProvenanceNode
  edges : List ProvenanceEdge
  total_versions : ℚ
  spread_depth : ℚ
  integrity_score : ℚ
  chain_broken : Bool
deriving DecidableEq, Repr

/-- `types.ts` `SocialSpreadNode`. -/
structure SocialSpreadNode where
  platform : String
  account_id : String
  account_name : String
  timestamp : String
  shares : ℚ
  likes : ℚ
  reach : ℚ
  deepfake_score : ℚ
  is_bot : Bool
deriving DecidableEq, Repr

/-- `types.ts` `SocialSpreadGraph`. -/
structure SocialSpreadGraph where
  image_id : String
  platforms : List String
  total_reach : ℚ
  viral_coefficient : ℚ
  spread_timeline : List SocialSpreadNode
  first_seen : String
  peak_spread_time : String
deriving DecidableEq, Repr

/-- `types.ts` `ForensicsReport` (custody steps as `(step, action, timestamp, agent)`). -/
structure CustodyStep where
  step : ℚ
  action : String
  timestamp : String
  agent : String
deriving DecidableEq, Repr

/-- `types.ts` `ForensicsReport`. -/
structure ForensicsReport where
  report_id : String
  image_id : String
  generated_at : String
  deepfake_analysis : DeepfakeScore
  metadata_analysis : MetadataAnalysis
  provenance_graph : ProvenanceGraph
  social_spread : SocialSpreadGraph
  manipulation_regions : List ManipulationRegion
  overall_authenticity_score : ℚ
  verdict : Verdict
  evidence_summary : List String
  chain_of_custody : List CustodyStep
deriving DecidableEq, Repr

/-- `types.ts` `AnalysisResult`. -/
structure AnalysisResult where
  image_id : String
  verdict : Verdict
  deepfake_score : DeepfakeScore
  ela_map : List (List ℚ)
  metadata : MetadataAnalysis
  manipulation_regions : List ManipulationRegion
  analyzed_at : String
deriving DecidableEq, Repr

/-- A browser `File` handle as the embedded code observes it: name, byte size
and MIME type. -/
structure BrowserFile where
  name : String
  size : ℚ
  type : String
deriving DecidableEq, Repr

/-- Status of a store-level upload-queue entry (`appStore.ts`, `uploadQueue`). -/
inductive StoreQueueStatus where
  | queued
  | uploading
  | done
  | error
deriving DecidableEq, Repr

/-- Entry of `appStore.ts` `uploadQueue`. -/
structure StoreQueueItem where
  file : BrowserFile
  status : StoreQueueStatus
  imageId : Option String
deriving DecidableEq, Repr

/-- The zustand `AppState` of `src/frontend/src/store/appStore.ts`
(state fields only; the setters are modelled as functions below). -/
structure AppState where
  currentImageId : Option String
  uploadedImage : Option ImageUploadResponse
  analysisResult : Option AnalysisResult
  provenanceGraph : Option ProvenanceGraph
  socialSpread : Option SocialSpreadGraph
  report : Option ForensicsReport
  isUploading : Bool
  isAnalyzing : Bool
  isBuildingGraph : Bool
  isLoadingSocial : Bool
  isGeneratingReport : Bool
  error : Option String
  uploadQueue : List StoreQueueItem
deriving DecidableEq, Repr

/-- The initial store state (`appStore.ts` lines 52-64): every session field
empty, every busy flag false, no error, empty queue. -/
def initialState : AppState where
  currentImageId := none
  uploadedImage := none
  analysisResult := none
  provenanceGraph := none
  socialSpread := none
  report := none
  isUploading := false
  isAnalyzing := false
  isBuildingGraph := false
  isLoadingSocial := false
  isGeneratingReport := false
  error := none
  uploadQueue := []

/-- `setCurrentImageId` (`appStore.ts` line 66): zustand `set` merges the
given fields into the state, leaving all others unchanged. -/
def setCurrentImageId (id : Option String) (s : AppState) : AppState :=
  { s with currentImageId := id }

/-- `setUploadedImage` (`appStore.ts` line 67). -/
def setUploadedImage (img : Option ImageUploadResponse) (s : AppState) : AppState :=
  { s with uploadedImage := img }

/-- `setAnalysisResult` (`appStore.ts` line 68). -/
def setAnalysisResult (result : Option AnalysisResult) (s : AppState) : AppState :=
  { s with analysisResult := result }

/-- `setError` (`appStore.ts` line 77). -/
def setError (e : Option String) (s : AppState) : AppState :=
  { s with error := e }

/-- `setIsUploading` (`appStore.ts` line 72). -/
def setIsUploading (v : Bool) (s : AppState) : AppState :=
  { s with isUploading := v }

/-- `setIsAnalyzing` (`appStore.ts` line 73). -/
def setIsAnalyzing (v : Bool) (s : AppState) : AppState :=
  { s with isAnalyzing := v }

/-- `resetSession` (`appStore.ts` lines 85-94): a zustand `set` with exactly
the seven listed fields; all fields not listed (the five busy flags and
`uploadQueue`) are left as they were, because `set` merges. -/
def resetSession (s : AppState) : AppState :=
  { s with
    currentImageId := none
    uploadedImage := none
    analysisResult := none
    provenanceGraph := none
    socialSpread := none
    report := none
    error := none }

/-- The verdict classification rule of spec §4.5 (VerdictClassifier):
`isDeepfake == true → DEEPFAKE`; else `score > 0.3 → SUSPICIOUS`;
else `AUTHENTIC`. Stated from the spec's words to be compared with the
two call sites embedded from the source. -/
def classify (score : ℚ) (isDeepfake : Bool) : Verdict :=
  if isDeepfake then .DEEPFAKE
  else if score > 3/10 then .SUSPICIOUS
  else .AUTHENTIC

/-- The verdict derivation of `AnalysisPage` (`SocialTracker.tsx`
lines 282-285 of the concatenated file):
`df ? (df.is_deepfake ? 'DEEPFAKE' : df.overall_score > 0.3 ? 'SUSPICIOUS'
: 'AUTHENTIC') : null`, where `df = analysisResult?.deepfake_score`. -/
def analysisPageVerdict (analysisResult : Option AnalysisResult) : Option Verdict :=
  match analysisResult with
  | none => none
  | some r =>
      some (if r.deepfake_score.is_deepfake then .DEEPFAKE
            else if r.deepfake_score.overall_score > 3/10 then .SUSPICIOUS
            else .AUTHENTIC)

/-- The verdict derivation inside `runBatch` (`SocialTracker.tsx` lines
432-434): `result.deepfake_score.is_deepfake ? 'DEEPFAKE' : score > 0.3 ?
'SUSPICIOUS' : 'AUTHENTIC'` with `score = result.deepfake_score.overall_score`. -/
def runBatchVerdict (result : AnalysisResult) : Verdict :=
  let score := result.deepfake_score.overall_score
  if result.deepfake_score.is_deepfake then .DEEPFAKE
  else if score > 3/10 then .SUSPICIOUS
  else .AUTHENTIC

/-- A rejected API promise, as the embedded code observes it: the optional
`e?.response?.data?.detail` string. -/
structure ApiError where
  detail : Option String
deriving DecidableEq, Repr

/-- The error-message pattern `e?.response?.data?.detail || fallback`:
JavaScript `||` falls through to the fallback both when the detail chain is
absent and when it is the empty string (which is falsy). -/
def errDetail (e : ApiError) (fallback : String) : String :=
  match e.detail with
  | some d => if d = "" then fallback else d
  | none => fallback

/-- One network call issued through `api/client.ts`, recorded so the
theorems can speak about which calls a run performs. -/
inductive ApiCall where
  | upload (file : BrowserFile)
  | analyze (imageId : String)
deriving DecidableEq, Repr

/-- The single-image pipeline `runAnalysis` of `AnalysisPage`
(`SocialTracker.tsx` lines 262-280 of the concatenated file), embedded as a
state transformer over the app store plus the list of API calls it issued.
`upload`/`analyze` are the remote collaborators `uploadImage`/`analyzeImage`;
a `.error` value is a rejected promise caught by the `catch` block.
Source shape:
```
const file = fileRef.current;
if (!file) return;
try {
  setIsUploading(true); setError(null);
  const uploaded = await uploadImage(file);
  setUploadedImage(uploaded);
  setCurrentImageId(uploaded.image_id);
  setIsUploading(false);
  setIsAnalyzing(true);
  const result = await analyzeImage(uploaded.image_id);
  setAnalysisResult(result);
} catch (err) {
  setError(err?.response?.data?.detail || 'Analysis failed. ...');
} finally { setIsUploading(false); setIsAnalyzing(false); }
```
-/
def runAnalysis (upload : BrowserFile → Except ApiError ImageUploadResponse)
    (analyze : String → Except ApiError AnalysisResult)
    (fileRef : Option BrowserFile) (s : AppState) : AppState × List ApiCall :=
  match fileRef with
  | none => (s, [])
  | some file =>
    let s1 := setError none (setIsUploading true s)
    match upload file with
    | .error err =>
        (setIsAnalyzing false (setIsUploading false
          (setError (some (errDetail err "Analysis failed. Is the backend running on port 8000?")) s1)),
         [.upload file])
    | .ok uploaded =>
      let s2 := setIsUploading false
        (setCurrentImageId (some uploaded.image_id) (setUploadedImage (some uploaded) s1))
      let s3 := setIsAnalyzing true s2
      match analyze uploaded.image_id with
      | .error err =>
          (setIsAnalyzing false (setIsUploading false
            (setError (some (errDetail err "Analysis failed. Is the backend running on port 8000?")) s3)),
           [.upload file, .analyze uploaded.image_id])
      | .ok result =>
          (setIsAnalyzing false (setIsUploading false (setAnalysisResult (some result) s3)),
           [.upload file, .analyze uploaded.image_id])

/-- Status of a `BatchAnalysisPage` queue item (`QueueItem['status']`). -/
inductive BatchStatus where
  | queued
  | uploading
  | analyzing
  | done
  | error
deriving DecidableEq, Repr

/-- `BatchAnalysisPage` `QueueItem` (`SocialTracker.tsx` lines 380-388). -/
structure QueueItem where
  file : BrowserFile
  status : BatchStatus
  imageId : Option String
  verdict : Option Verdict
  score : Option ℚ
  error : Option String
  previewUrl : String
deriving DecidableEq, Repr

/-- The loop body of `runBatch` for one non-skipped item (`SocialTracker.tsx`
lines 426-438): the `updateItem` calls are partial merges, so every field not
named in an update keeps its previous value. Returns the updated item, the
`setCurrentImageId` argument when the upload succeeded, and the API calls
issued for this item. Source shape:
```
try {
  updateItem(i, { status: 'uploading' });
  const uploaded = await uploadImage(queue[i].file);
  updateItem(i, { status: 'analyzing', imageId: uploaded.image_id });
  setCurrentImageId(uploaded.image_id);
  const result = await analyzeImage(uploaded.image_id);
  const score = result.deepfake_score.overall_score;
  const verdict = ...;
  updateItem(i, { status: 'done', verdict, score });
} catch (e) {
  updateItem(i, { status: 'error', error: e?.response?.data?.detail || 'Failed' });
}
```
-/
def processItem (upload : BrowserFile → Except ApiError ImageUploadResponse)
    (analyze : String → Except ApiError AnalysisResult)
    (it : QueueItem) : QueueItem × Option String × List ApiCall :=
  let it1 := { it with status := .uploading }
  match upload it.file with
  | .error e =>
      ({ it1 with status := .error, error := some (errDetail e "Failed") },
       none, [.upload it.file])
  | .ok uploaded =>
    let it2 := { it1 with status := .analyzing, imageId := some uploaded.image_id }
    match analyze uploaded.image_id with
    | .error e =>
        ({ it2 with status := .error, error := some (errDetail e "Failed") },
         some uploaded.image_id, [.upload it.file, .analyze uploaded.image_id])
    | .ok result =>
        ({ it2 with
            status := .done
            verdict := some (runBatchVerdict result)
            score := some result.deepfake_score.overall_score },
         some uploaded.image_id, [.upload it.file, .analyze uploaded.image_id])

/-- The `runBatch` loop (`SocialTracker.tsx` lines 422-441) over the queue
suffix starting at index `i`, threading the store's `currentImageId` and
accumulating the issued calls tagged with the loop index. An item whose
status is already `done` is skipped outright (`if (queue[i].status === 'done')
continue;`); for every other item the body `processItem` runs. -/
def runBatchAux (upload : BrowserFile → Except ApiError ImageUploadResponse)
    (analyze : String → Except ApiError AnalysisResult)
    (i : Nat) (cid : Option String) :
    List QueueItem → List QueueItem × Option String × List (Nat × ApiCall)
  | [] => ([], cid, [])
  | it :: rest =>
    if it.status = .done then
      let r := runBatchAux upload analyze (i + 1) cid rest
      (it :: r.1, r.2.1, r.2.2)
    else
      let p := processItem upload analyze it
      let cid1 := match p.2.1 with
        | some id => some id
        | none => cid
      let r := runBatchAux upload analyze (i + 1) cid1 rest
      (p.1 :: r.1, r.2.1, p.2.2.map (fun c => (i, c)) ++ r.2.2)

/-- `runBatch`: run the whole queue in array order from the store's current
image id, returning the new queue, the new `currentImageId` and the call log. -/
def runBatch (upload : BrowserFile → Except ApiError ImageUploadResponse)
    (analyze : String → Except ApiError AnalysisResult)
    (q : List QueueItem) (cid : Option String) :
    List QueueItem × Option String × List (Nat × ApiCall) :=
  runBatchAux upload analyze 0 cid q

/-- On-demand counter `done` (`SocialTracker.tsx` line 446):
`queue.filter(q => q.status === 'done').length`. -/
def doneCount (q : List QueueItem) : Nat :=
  (q.filter (fun it => it.status = .done)).length

/-- On-demand counter `errors` (`SocialTracker.tsx` line 447):
`queue.filter(q => q.status === 'error').length`. -/
def errorCount (q : List QueueItem) : Nat :=
  (q.filter (fun it => it.status = .error)).length

/-- On-demand counter `deepfakes` (`SocialTracker.tsx` line 448):
`queue.filter(q => q.verdict === 'DEEPFAKE').length`. -/
def deepfakeCount (q : List QueueItem) : Nat :=
  (q.filter (fun it => it.verdict = some .DEEPFAKE)).length

/-- The `Total` counter is `queue.length` (`SocialTracker.tsx` line 479). -/
def totalCount (q : List QueueItem) : Nat := q.length

/-- Lookup in a JS record embedded as an association list with unique keys
(`m[k]`, and `k in m` is `(lookupEntry m k).isSome`). -/
def lookupEntry {α β : Type} [DecidableEq α] (m : List (α × β)) (k : α) : Option β :=
  (m.find? (fun p => p.1 = k)).map (fun p => p.2)

/-- JS record assignment `m[k] = v`: overwrite the existing binding if the key
is present, otherwise append a new binding. -/
def setEntry {α β : Type} [DecidableEq α] : List (α × β) → α → β → List (α × β)
  | [], k, v => [(k, v)]
  | p :: rest, k, v => if p.1 = k then (k, v) :: rest else p :: setEntry rest k v

/-- Forward adjacency built by `graphToFlow` (`ProvenanceGraph.tsx` lines
23-27): the record produced by the `forEach` maps each `u` to the targets of
the edges with source `u`, in edge order; `adj[cur] ?? []` makes absent keys
the empty list, so the record denotes exactly this function. -/
def buildAdj (edges : List ProvenanceEdge) : String → List String :=
  fun u => (edges.filter (fun e => e.source = u)).map (fun e => e.target)

/-- Inner loop of the BFS (`for (const child of (adj[cur] ?? []))`,
`ProvenanceGraph.tsx` lines 30-32): a child with no assigned level yet gets
`levelMap[cur] + 1` and is pushed on the queue. `curLevel` is `levelMap[cur]`,
which is constant while the loop runs because entries are only ever added for
keys that are absent. -/
def visitChildren (curLevel : Nat) :
    List String → List (String × Nat) → List String → List (String × Nat) × List String
  | [], lm, q => (lm, q)
  | c :: cs, lm, q =>
    if (lookupEntry lm c).isSome then visitChildren curLevel cs lm q
    else visitChildren curLevel cs (lm ++ [(c, curLevel + 1)]) (q ++ [c])

/-- The `while (queue.length)` loop of `graphToFlow` (`ProvenanceGraph.tsx`
lines 28-33), with an explicit iteration budget. Each iteration shifts the
queue head and visits its children. The budget only bounds the number of
iterations of the embedding; `bfsLoop_fuel_sufficient` below proves that the
budget used by `bfsLevels` is never exhausted, so the JS loop — which runs
until the queue is empty — computes the same map. -/
def bfsLoop (adj : String → List String) :
    Nat → List String → List (String × Nat) → List (String × Nat)
  | 0, _, lm => lm
  | _ + 1, [], lm => lm
  | fuel + 1, cur :: rest, lm =>
    let curLevel := (lookupEntry lm cur).getD 0
    let step := visitChildren curLevel (adj cur) lm rest
    bfsLoop adj fuel step.2 step.1

/-- The level map computed by `graphToFlow` (`ProvenanceGraph.tsx` lines
20-33): queue seeded with `root_node_id`, `levelMap[root] = 0`, then the BFS
loop. The budget `edges.length + 1` bounds the total number of dequeues:
every enqueued node is simultaneously given a level, levels are never
removed, their keys stay pairwise distinct, and every key other than the
root is the target of some edge. -/
def bfsLevels (g : ProvenanceGraph) : List (String × Nat) :=
  bfsLoop (buildAdj g.edges) (g.edges.length + 1) [g.root_node_id] [(g.root_node_id, 0)]

/-- `levelMap[n.id] ?? 0` — the level a node receives, with the default 0 for
nodes the traversal never visited. -/
def nodeLevel (g : ProvenanceGraph) (v : String) : Nat :=
  (lookupEntry (bfsLevels g) v).getD 0

/-- One step of the `graph.nodes.forEach` that assigns per-level counts and
per-node horizontal indices (`ProvenanceGraph.tsx` lines 34-40):
`levelIdx[n.id] = levelCounts[lv] ?? 0; levelCounts[lv] = (levelCounts[lv] ?? 0) + 1`.
The accumulator is the pair `(levelCounts, levelIdx)`. -/
def idxStep (lvl : String → Nat) (acc : List (Nat × Nat) × List (String × Nat))
    (n : ProvenanceNode) : List (Nat × Nat) × List (String × Nat) :=
  let lv := lvl n.id
  let cur := (lookupEntry acc.1 lv).getD 0
  (setEntry acc.1 lv (cur + 1), setEntry acc.2 n.id cur)

/-- The whole `forEach` of `ProvenanceGraph.tsx` lines 36-40. -/
def buildLevelTables (lvl : String → Nat) (nodes : List ProvenanceNode) :
    List (Nat × Nat) × List (String × Nat) :=
  nodes.foldl (idxStep lvl) ([], [])

/-- `const W = 210` (`ProvenanceGraph.tsx` line 41); the spec's NODE_WIDTH. -/
def NODE_WIDTH : ℚ := 210

/-- `const H = 165` (`ProvenanceGraph.tsx` line 41); the spec's ROW_HEIGHT. -/
def ROW_HEIGHT : ℚ := 165

/-- The `data` payload of a laid-out ReactFlow node. -/
structure FlowNodeData where
  label : String
  platform : String
  deepfake_score : ℚ
  manipulation_type : Option String
  is_root : Bool
  timestamp : String
deriving DecidableEq, Repr

/-- A laid-out ReactFlow node: id, type, position and data payload. -/
structure FlowNode where
  id : String
  type : String
  x : ℚ
  y : ℚ
  data : FlowNodeData
deriving DecidableEq, Repr

/-- A laid-out ReactFlow edge (style fields aside, which are constants). -/
structure FlowEdge where
  id : String
  source : String
  target : String
  label : String
  animated : Bool
deriving DecidableEq, Repr

/-- The per-node body of the `graph.nodes.map` (`ProvenanceGraph.tsx` lines
42-52): `lv = levelMap[n.id] ?? 0`, `cnt = levelCounts[lv] ?? 1`,
`idx = levelIdx[n.id] ?? 0`, position `x = (idx - (cnt - 1) / 2) * W`,
`y = lv * H`. -/
def flowNodeOf (levelMap : List (String × Nat)) (levelCounts : List (Nat × Nat))
    (levelIdx : List (String × Nat)) (n : ProvenanceNode) : FlowNode :=
  let lv := (lookupEntry levelMap n.id).getD 0
  let cnt := (lookupEntry levelCounts lv).getD 1
  let idx := (lookupEntry levelIdx n.id).getD 0
  { id := n.id
    type := "provenance"
    x := ((idx : ℚ) - ((cnt : ℚ) - 1) / 2) * NODE_WIDTH
    y := (lv : ℚ) * ROW_HEIGHT
    data := { label := n.filename
              platform := n.platform
              deepfake_score := n.deepfake_score
              manipulation_type := n.manipulation_type
              is_root := n.is_root
              timestamp := n.timestamp } }

/-- The node half of `graphToFlow`. -/
def graphToFlowNodes (g : ProvenanceGraph) : List FlowNode :=
  let levelMap := bfsLevels g
  let tables := buildLevelTables (fun v => (lookupEntry levelMap v).getD 0) g.nodes
  g.nodes.map (flowNodeOf levelMap tables.1 tables.2)

/-- The edge half of `graphToFlow` (`ProvenanceGraph.tsx` lines 53-61). -/
def graphToFlowEdges (g : ProvenanceGraph) : List FlowEdge :=
  g.edges.enum.map (fun p =>
    { id := "e" ++ toString p.1
      source := p.2.source
      target := p.2.target
      label := p.2.relationship.replace "_" " "
      animated := p.2.relationship = "derived_from" })

/-- `graphToFlow` (`ProvenanceGraph.tsx` lines 19-63). -/
def graphToFlow (g : ProvenanceGraph) : List FlowNode × List FlowEdge :=
  (graphToFlowNodes g, graphToFlowEdges g)

/-! ### Concrete sample data used by witnesses and counterexamples -/

/-- A sample image file of the given name. -/
def sampleFile (n : String) : BrowserFile := ⟨n, 100, "image/png"⟩

/-- A sample metadata record. -/
def sampleMetadata : MetadataAnalysis :=
  ⟨"img1", false, none, none, none, none, none, none, none, none, none, none,
   false, 0, false, 1, []⟩

/-- A sample score bundle with the given overall score and flag. -/
def sampleScore (s : ℚ) (d : Bool) : DeepfakeScore :=
  ⟨s, 0, 0, 0, 0, 0, d, "LOW", "v1.0"⟩

/-- A sample analysis result for the given image id. -/
def sampleAnalysis (id : String) (s : ℚ) (d : Bool) : AnalysisResult :=
  ⟨id, .AUTHENTIC, sampleScore s d, [], sampleMetadata, [], "2024-01-01"⟩

/-- A sample upload response with the given image id. -/
def sampleUploadResp (id : String) : ImageUploadResponse :=
  ⟨id, "f.png", 100, "2024-01-01", 64, 64, "PNG", "p", "d", "a"⟩

/-- An upload collaborator that always succeeds, deriving the image id from
the file name. -/
def uploadOk : BrowserFile → Except ApiError ImageUploadResponse :=
  fun file => .ok (sampleUploadResp ("id_" ++ file.name))

/-- An upload collaborator that rejects exactly the file named `"b"`. -/
def uploadRejectsB : BrowserFile → Except ApiError ImageUploadResponse :=
  fun file =>
    if file.name = "b" then .error ⟨some "boom"⟩
    else .ok (sampleUploadResp ("id_" ++ file.name))

/-- An upload collaborator that always rejects. -/
def uploadRejects : BrowserFile → Except ApiError ImageUploadResponse :=
  fun _ => .error ⟨some "upload down"⟩

/-- An analyze collaborator that always succeeds with overall score 1/2 and
`is_deepfake = false`. -/
def analyzeOk : String → Except ApiError AnalysisResult :=
  fun id => .ok (sampleAnalysis id (1/2) false)

/-- An analyze collaborator that always rejects. -/
def analyzeRejects : String → Except ApiError AnalysisResult :=
  fun _ => .error ⟨some "bad analysis"⟩

/-- A freshly enqueued batch item for a file of the given name. -/
def queuedItem (n : String) : QueueItem :=
  ⟨sampleFile n, .queued, none, none, none, none, "blob:" ++ n⟩

/-- A batch item that previously ended in `error` with its message stored. -/
def erroredItem : QueueItem :=
  { queuedItem "a" with status := .error, error := some "Failed" }

/-- The three-item queue of the spec's batch scenario. -/
def batch3 : List QueueItem := [queuedItem "a", queuedItem "b", queuedItem "c"]

/-- A sample derivation edge for witnesses. -/
def sampleEdge (s t : String) : ProvenanceEdge := ⟨s, t, "derived_from", 1, 0⟩

/-- A sample provenance node of the given id. -/
def sampleNode (id : String) : ProvenanceNode :=
  ⟨id, "img1", id ++ ".png", "2024-01-01", "Twitter", 0, false, none, "ph", "th"⟩

/-- A sample graph: root `"r"` with the chain `r → a → b`; the listed node
`"z"` is disconnected from the root. -/
def sampleGraph : ProvenanceGraph :=
  { image_id := "img1"
    root_node_id := "r"
    nodes := [sampleNode "r", sampleNode "a", sampleNode "b", sampleNode "z"]
    edges := [sampleEdge "r" "a", sampleEdge "a" "b"]
    total_versions := 4
    spread_depth := 2
    integrity_score := 1
    chain_broken := false }

/-- The coordinates the layout assigns to one node of the graph (the `x` and
`y` of the corresponding element of `graphToFlowNodes`). -/
def nodeCoord (g : ProvenanceGraph) (n : ProvenanceNode) : ℚ × ℚ :=
  let levelMap := bfsLevels g
  let tables := buildLevelTables (fun v => (lookupEntry levelMap v).getD 0) g.nodes
  ((flowNodeOf levelMap tables.1 tables.2 n).x, (flowNodeOf levelMap tables.1 tables.2 n).y)

/-- The x-coordinates the layout assigns to the nodes of level `L`, in node
list order. -/
def levelXs (g : ProvenanceGraph) (L : Nat) : List ℚ :=
  (g.nodes.filter (fun n => nodeLevel g n.id = L)).map (fun n => (nodeCoord g n).1)

/-- The image id produced by the upload collaborator on an item's file, when
it succeeds. -/
def uploadIdOf (upload : BrowserFile → Except ApiError ImageUploadResponse)
    (it : QueueItem) : Option String :=
  match upload it.file with
  | .ok u => some u.image_id
  | .error _ => none

/-- Image ids of the successful uploads a `runAll` pass performs, in order:
one for every non-skipped (non-`done`) item whose upload call succeeds. -/
def succUploadIds (upload : BrowserFile → Except ApiError ImageUploadResponse)
    (q : List QueueItem) : List String :=
  q.filterMap (fun it => if it.status = .done then none else uploadIdOf upload it)

/-- Closed form of the call log of a `runAll` pass starting at index `i`:
skipped items contribute nothing, every other item contributes the calls of
its own loop body tagged with its index. (The log of `runBatchAux` does not
depend on the threaded `currentImageId`.) -/
def batchLog (upload : BrowserFile → Except ApiError ImageUploadResponse)
    (analyze : String → Except ApiError AnalysisResult)
    (i : Nat) : List QueueItem → List (Nat × ApiCall)
  | [] => []
  | it :: rest =>
    (if it.status = .done then []
     else (processItem upload analyze it).2.2.map (fun c => (i, c)))
      ++ batchLog upload analyze (i + 1) rest

/-- Closed form of the `currentImageId` left behind by a `runAll` pass: fold
the successful uploads of the non-skipped items over the starting value. -/
def lastCid (upload : BrowserFile → Except ApiError ImageUploadResponse)
    (cid : Option String) : List QueueItem → Option String
  | [] => cid
  | it :: rest =>
    lastCid upload
      (if it.status = .done then cid
       else
         match uploadIdOf upload it with
         | some id => some id
         | none => cid) rest

/-- A forward path of exactly `n` edges from `u` to `v` along an adjacency
function. -/
inductive PathLen (adj : String → List String) : String → String → Nat → Prop where
  | refl (u : String) : PathLen adj u u 0
  | step {u v w : String} {n : Nat} :
      v ∈ adj u → PathLen adj v w n → PathLen adj u w (n + 1)

/-- `d` is the BFS distance from `r` to `v` along forward edges: a forward
path of length `d` exists and no shorter one does. -/
def IsBfsDist (adj : String → List String) (r v : String) (d : Nat) : Prop :=
  PathLen adj r v d ∧ ∀ m, PathLen adj r v m → d ≤ m

/-- `v` is reachable from `r` along forward edges. -/
def ReachesF (adj : String → List String) (r v : String) : Prop :=
  ∃ n, PathLen adj r v n

/-- The loop invariant of the BFS of `graphToFlow`, relating the pending
queue `q` and the level map `lm`. `targets` over-approximates the possible
child nodes (for the adjacency built from a graph: all edge targets). -/
structure BfsInv (adj : String → List String) (root : String) (targets : List String)
    (q : List String) (lm : List (String × Nat)) : Prop where
  nodupKeys : (lm.map Prod.fst).Nodup
  rootMem : lookupEntry lm root = some 0
  keySrc : ∀ k ∈ lm.map Prod.fst, k = root ∨ k ∈ targets
  qSub : ∀ u ∈ q, ∃ l, lookupEntry lm u = some l
  qNodup : q.Nodup
  sound : ∀ v l, lookupEntry lm v = some l → PathLen adj root v l
  minim : ∀ v l, lookupEntry lm v = some l → ∀ m, PathLen adj root v m → l ≤ m
  closed : ∀ a ka, lookupEntry lm a = some ka → a ∉ q →
    ∀ b ∈ adj a, ∃ kb, lookupEntry lm b = some kb ∧ kb ≤ ka + 1
  levels : ∃ L qa qb, q = qa ++ qb
    ∧ (∀ u ∈ qa, lookupEntry lm u = some L)
    ∧ (∀ u ∈ qb, lookupEntry lm u = some (L + 1))

end ImgProvenance

namespace ImgProvenance

/-! ### C1 — `resetSession` -/

/-- C1 counterexample: `resetSession` applied to a state whose `isUploading`
busy flag is `true` does not return the initial state — zustand `set` merges
only the seven listed fields, so the busy flags survive the reset. -/
theorem resetSession_not_initial_on_busy_flag :
    resetSession { initialState with isUploading := true } ≠ initialState := by
  intro h
  have h2 := congrArg AppState.isUploading h
  simp [resetSession, initialState] at h2

/-- C1 (amended): `resetSession` restores `currentImageId`, `uploadedImage`,
`analysisResult`, `provenanceGraph`, `socialSpread`, `report` and `error` to
their initial empty values, but leaves the five busy flags and the upload
queue exactly as they were; the result is deep-equal to the initial state
precisely when those surviving fields were already initial. -/
theorem resetSession_clears_session_fields (s : AppState) :
    resetSession s =
      { initialState with
        isUploading := s.isUploading
        isAnalyzing := s.isAnalyzing
        isBuildingGraph := s.isBuildingGraph
        isLoadingSocial := s.isLoadingSocial
        isGeneratingReport := s.isGeneratingReport
        uploadQueue := s.uploadQueue } := rfl

/-! ### C2 — verdict classification -/

/-- C2: the classification rule. A `true` flag always yields DEEPFAKE; with a
`false` flag the verdict is SUSPICIOUS exactly when the score is strictly
above 3/10 and AUTHENTIC otherwise (so 3/10 itself is AUTHENTIC and 1/2 is
SUSPICIOUS); the single-image page and the batch item derivation compute
exactly this rule, so they agree at every input; and no input ever produces
MANIPULATED. -/
theorem classify_rule :
    (∀ s : ℚ, classify s true = .DEEPFAKE)
    ∧ (∀ s : ℚ, classify s false = if s > 3/10 then .SUSPICIOUS else .AUTHENTIC)
    ∧ classify (9/10) true = .DEEPFAKE
    ∧ classify (1/2) false = .SUSPICIOUS
    ∧ classify (3/10) false = .AUTHENTIC
    ∧ classify 0 false = .AUTHENTIC
    ∧ (∀ r : AnalysisResult,
        analysisPageVerdict (some r) =
          some (classify r.deepfake_score.overall_score r.deepfake_score.is_deepfake))
    ∧ analysisPageVerdict none = none
    ∧ (∀ r : AnalysisResult,
        runBatchVerdict r = classify r.deepfake_score.overall_score r.deepfake_score.is_deepfake)
    ∧ (∀ (s : ℚ) (b : Bool), classify s b ≠ .MANIPULATED) := by
  refine ⟨fun s => rfl, fun s => by simp [classify], by norm_num [classify],
    by norm_num [classify], by norm_num [classify], by norm_num [classify],
    fun r => rfl, rfl, fun r => rfl, fun s b => ?_⟩
  cases b with
  | false => simp only [classify, Bool.false_eq_true, if_false]; split <;> simp
  | true => simp [classify]

/-! ### C7 — missing-file guard of the single-image pipeline -/

/-- C7 counterexample: invoking the pipeline with no file present does not
produce any observable error — the guard `if (!file) return;` leaves the
session (in particular `error = none`) completely unchanged and issues no
call. This refutes the claim that a ValidationError is surfaced. -/
theorem runAnalysis_no_file_no_error :
    runAnalysis uploadOk analyzeOk none initialState = (initialState, [])
    ∧ initialState.error = none :=
  ⟨rfl, rfl⟩

/-- C7 (amended): invoked with no file present, the run returns immediately:
the session is returned unchanged — no error is set — and no network call is
made (the outcome does not even depend on the collaborators). -/
theorem runAnalysis_no_file_noop
    (upload : BrowserFile → Except ApiError ImageUploadResponse)
    (analyze : String → Except ApiError AnalysisResult) (s : AppState) :
    runAnalysis upload analyze none s = (s, []) := rfl

/-! ### C8 — analyze failure keeps the upload result; busy flags released -/

/-- C8: after a successful upload, if the analyze stage fails the session
error is set to the captured message, while the stored upload result and the
current image identifier keep their post-upload values; and on both the
failure and the success path of the analyze stage, every busy flag the run
toggled is false once the run settles. -/
theorem runAnalysis_analyze_failure_keeps_upload
    (upload : BrowserFile → Except ApiError ImageUploadResponse)
    (analyze : String → Except ApiError AnalysisResult)
    (s : AppState) (file : BrowserFile) (uploaded : ImageUploadResponse)
    (h1 : upload file = .ok uploaded) :
    (∀ e, analyze uploaded.image_id = .error e →
      (runAnalysis upload analyze (some file) s).1.error =
          some (errDetail e "Analysis failed. Is the backend running on port 8000?")
        ∧ (runAnalysis upload analyze (some file) s).1.uploadedImage = some uploaded
        ∧ (runAnalysis upload analyze (some file) s).1.currentImageId = some uploaded.image_id
        ∧ (runAnalysis upload analyze (some file) s).1.isUploading = false
        ∧ (runAnalysis upload analyze (some file) s).1.isAnalyzing = false)
    ∧ (∀ r, analyze uploaded.image_id = .ok r →
        (runAnalysis upload analyze (some file) s).1.isUploading = false
        ∧ (runAnalysis upload analyze (some file) s).1.isAnalyzing = false) := by
  constructor
  · intro e h2
    simp [runAnalysis, h1, h2, setError, setIsUploading, setIsAnalyzing,
      setUploadedImage, setCurrentImageId, setAnalysisResult]
  · intro r h2
    simp [runAnalysis, h1, h2, setError, setIsUploading, setIsAnalyzing,
      setUploadedImage, setCurrentImageId, setAnalysisResult]

/-- C8 witness: the theorem applied at concrete collaborators, once with a
failing analyze stage and once with a succeeding one. -/
theorem runAnalysis_analyze_failure_keeps_upload_witness :
    ((runAnalysis uploadOk analyzeRejects (some (sampleFile "a")) initialState).1.error =
        some "bad analysis"
      ∧ (runAnalysis uploadOk analyzeRejects (some (sampleFile "a")) initialState).1.uploadedImage =
        some (sampleUploadResp "id_a")
      ∧ (runAnalysis uploadOk analyzeRejects (some (sampleFile "a")) initialState).1.currentImageId =
        some "id_a"
      ∧ (runAnalysis uploadOk analyzeRejects (some (sampleFile "a")) initialState).1.isUploading = false
      ∧ (runAnalysis uploadOk analyzeRejects (some (sampleFile "a")) initialState).1.isAnalyzing = false)
    ∧ ((runAnalysis uploadOk analyzeOk (some (sampleFile "a")) initialState).1.isUploading = false
      ∧ (runAnalysis uploadOk analyzeOk (some (sampleFile "a")) initialState).1.isAnalyzing = false) := by
  constructor
  · have h := (runAnalysis_analyze_failure_keeps_upload uploadOk analyzeRejects initialState
      (sampleFile "a") (sampleUploadResp "id_a") rfl).1 ⟨some "bad analysis"⟩ rfl
    exact h
  · exact (runAnalysis_analyze_failure_keeps_upload uploadOk analyzeOk initialState
      (sampleFile "a") (sampleUploadResp "id_a") rfl).2
      (sampleAnalysis "id_a" (1/2) false) rfl

/-! ### Batch loop helper lemmas -/

/-- When the upload collaborator rejects an item's file, the loop body marks
exactly that item `error` with the captured message and records one call. -/
theorem processItem_upload_error
    (upload : BrowserFile → Except ApiError ImageUploadResponse)
    (analyze : String → Except ApiError AnalysisResult)
    (it : QueueItem) (e : ApiError) (h : upload it.file = .error e) :
    processItem upload analyze it =
      ({ it with status := .error, error := some (errDetail e "Failed") },
       none, [.upload it.file]) := by
  simp [processItem, h]

/-- When upload succeeds and analyze rejects, the item is marked `error` with
the captured message and keeps the recorded image id. -/
theorem processItem_analyze_error
    (upload : BrowserFile → Except ApiError ImageUploadResponse)
    (analyze : String → Except ApiError AnalysisResult)
    (it : QueueItem) (u : ImageUploadResponse) (e : ApiError)
    (h1 : upload it.file = .ok u) (h2 : analyze u.image_id = .error e) :
    processItem upload analyze it =
      ({ it with status := .error, imageId := some u.image_id,
                 error := some (errDetail e "Failed") },
       some u.image_id, [.upload it.file, .analyze u.image_id]) := by
  simp [processItem, h1, h2]

/-- When both stages succeed, the item is marked `done` with verdict and
score recorded; every field the updates do not name — in particular `error` —
keeps its previous value. -/
theorem processItem_success
    (upload : BrowserFile → Except ApiError ImageUploadResponse)
    (analyze : String → Except ApiError AnalysisResult)
    (it : QueueItem) (u : ImageUploadResponse) (r : AnalysisResult)
    (h1 : upload it.file = .ok u) (h2 : analyze u.image_id = .ok r) :
    processItem upload analyze it =
      ({ it with status := .done, imageId := some u.image_id,
                 verdict := some (runBatchVerdict r),
                 score := some r.deepfake_score.overall_score },
       some u.image_id, [.upload it.file, .analyze u.image_id]) := by
  simp [processItem, h1, h2]

/-- The loop body always issues the upload call for its item. -/
theorem processItem_upload_call_mem
    (upload : BrowserFile → Except ApiError ImageUploadResponse)
    (analyze : String → Except ApiError AnalysisResult) (it : QueueItem) :
    ApiCall.upload it.file ∈ (processItem upload analyze it).2.2 := by
  unfold processItem
  cases h1 : upload it.file with
  | error e => simp
  | ok u =>
    cases h2 : analyze u.image_id with
    | error e => simp [h2]
    | ok r => simp [h2]

/-- The second component of the loop body is the successful upload id. -/
theorem processItem_cid
    (upload : BrowserFile → Except ApiError ImageUploadResponse)
    (analyze : String → Except ApiError AnalysisResult) (it : QueueItem) :
    (processItem upload analyze it).2.1 = uploadIdOf upload it := by
  unfold processItem uploadIdOf
  cases h1 : upload it.file with
  | error e => simp
  | ok u =>
    cases h2 : analyze u.image_id with
    | error e => simp [h2]
    | ok r => simp [h2]

/-- The queue after a `runAll` pass, item by item: a `done` item is returned
unchanged, every other item is replaced by the result of its own loop body —
independently of every other item, so one item's failure never changes
another item or aborts the loop. -/
theorem runBatchAux_queue
    (upload : BrowserFile → Except ApiError ImageUploadResponse)
    (analyze : String → Except ApiError AnalysisResult) :
    ∀ (q : List QueueItem) (i : Nat) (cid : Option String),
      (runBatchAux upload analyze i cid q).1 =
        q.map (fun it => if it.status = .done then it else (processItem upload analyze it).1)
  | [], _, _ => rfl
  | it :: rest, i, cid => by
    by_cases h : it.status = .done
    · simp [runBatchAux, h, runBatchAux_queue upload analyze rest (i + 1) cid]
    · simp [runBatchAux, h, runBatchAux_queue upload analyze rest]

/-- The call log of a `runAll` pass is `batchLog` — in particular it does not
depend on the threaded image id. -/
theorem runBatchAux_log
    (upload : BrowserFile → Except ApiError ImageUploadResponse)
    (analyze : String → Except ApiError AnalysisResult) :
    ∀ (q : List QueueItem) (i : Nat) (cid : Option String),
      (runBatchAux upload analyze i cid q).2.2 = batchLog upload analyze i q
  | [], _, _ => rfl
  | it :: rest, i, cid => by
    by_cases h : it.status = .done
    · simp [runBatchAux, batchLog, h, runBatchAux_log upload analyze rest (i + 1) cid]
    · simp [runBatchAux, batchLog, h, runBatchAux_log upload analyze rest]

/-- Membership in the call log: `(k, c)` is logged exactly when `k` names a
non-skipped position of the queue and `c` is one of the calls of that item's
own loop body. -/
theorem batchLog_mem
    (upload : BrowserFile → Except ApiError ImageUploadResponse)
    (analyze : String → Except ApiError AnalysisResult) :
    ∀ (q : List QueueItem) (i k : Nat) (c : ApiCall),
      ((k, c) ∈ batchLog upload analyze i q ↔
        ∃ j, ∃ h : j < q.length, k = i + j ∧ ¬(q.get ⟨j, h⟩).status = .done ∧
          c ∈ (processItem upload analyze (q.get ⟨j, h⟩)).2.2)
  | [], i, k, c => by simp [batchLog]
  | it :: rest, i, k, c => by
    rw [batchLog]
    by_cases h : it.status = .done
    · rw [if_pos h]
      rw [List.nil_append, batchLog_mem upload analyze rest (i + 1) k c]
      constructor
      · rintro ⟨j, hj, rfl, hnd, hc⟩
        refine ⟨j + 1, Nat.succ_lt_succ hj, by omega, ?_, ?_⟩
        · simpa using hnd
        · simpa using hc
      · rintro ⟨j, hj, rfl, hnd, hc⟩
        cases j with
        | zero => exact absurd h (by simpa using hnd)
        | succ j' =>
          exact ⟨j', Nat.lt_of_succ_lt_succ hj, by omega, by simpa using hnd, by simpa using hc⟩
    · rw [if_neg h]
      rw [List.mem_append, List.mem_map, batchLog_mem upload analyze rest (i + 1) k c]
      constructor
      · rintro (⟨c', hc', hkc⟩ | ⟨j, hj, rfl, hnd, hc⟩)
        · obtain ⟨rfl, rfl⟩ : i = k ∧ c' = c := by
            constructor <;> [exact congrArg Prod.fst hkc; exact congrArg Prod.snd hkc]
          exact ⟨0, Nat.succ_pos _, by omega, by simpa using h, by simpa using hc'⟩
        · refine ⟨j + 1, Nat.succ_lt_succ hj, by omega, by simpa using hnd, by simpa using hc⟩
      · rintro ⟨j, hj, rfl, hnd, hc⟩
        cases j with
        | zero => exact Or.inl ⟨c, by simpa using hc, by simp⟩
        | succ j' =>
          exact Or.inr ⟨j', Nat.lt_of_succ_lt_succ hj, by omega,
            by simpa using hnd, by simpa using hc⟩

/-- The `currentImageId` left behind by a `runAll` pass is `lastCid`. -/
theorem runBatchAux_cid
    (upload : BrowserFile → Except ApiError ImageUploadResponse)
    (analyze : String → Except ApiError AnalysisResult) :
    ∀ (q : List QueueItem) (i : Nat) (cid : Option String),
      (runBatchAux upload analyze i cid q).2.1 = lastCid upload cid q
  | [], _, _ => rfl
  | it :: rest, i, cid => by
    by_cases h : it.status = .done
    · simp [runBatchAux, lastCid, h, runBatchAux_cid upload analyze rest (i + 1) cid]
    · simp only [runBatchAux, lastCid, if_neg h, processItem_cid]
      exact runBatchAux_cid upload analyze rest (i + 1) _

/-- `lastCid` is the last successful upload id when one exists, and the
starting value otherwise. -/
theorem lastCid_eq_getLast
    (upload : BrowserFile → Except ApiError ImageUploadResponse) :
    ∀ (q : List QueueItem) (cid : Option String),
      lastCid upload cid q = ((succUploadIds upload q).getLast?).elim cid some
  | [], cid => by simp [lastCid, succUploadIds]
  | it :: rest, cid => by
    by_cases h : it.status = .done
    · rw [show succUploadIds upload (it :: rest) = succUploadIds upload rest from by
        simp [succUploadIds, h]]
      simpa [lastCid, h] using lastCid_eq_getLast upload rest cid
    · cases hu : uploadIdOf upload it with
      | none =>
        rw [show succUploadIds upload (it :: rest) = succUploadIds upload rest from by
          simp [succUploadIds, h, hu]]
        simpa [lastCid, h, hu] using lastCid_eq_getLast upload rest cid
      | some id =>
        rw [show succUploadIds upload (it :: rest) = id :: succUploadIds upload rest from by
          simp [succUploadIds, h, hu]]
        rw [show lastCid upload cid (it :: rest) = lastCid upload (some id) rest from by
          simp [lastCid, h, hu]]
        rw [lastCid_eq_getLast upload rest (some id)]
        cases hr : succUploadIds upload rest with
        | nil => simp
        | cons a l =>
          rw [List.getLast?_cons_cons]
          cases hl : (a :: l).getLast? with
          | none => exact absurd (List.getLast?_eq_none_iff.mp hl) (by simp)
          | some x => rfl

/-! ### C3 — one item's exception never aborts the loop or touches others -/

/-- C3: the queue after `runAll` is computed item by item — a `done` item is
kept, every other item becomes the result of its own loop body, so an
exception thrown for one item (captured as that item's `error` status and
message) never aborts the loop and never changes any other item. In the
concrete three-item scenario where only the second item's upload rejects,
items 1 and 3 end `done`, item 2 ends `error` with its message retained, and
the on-demand counters give total 3, done 2, error 1. -/
theorem runBatch_failure_isolation :
    (∀ (upload : BrowserFile → Except ApiError ImageUploadResponse)
       (analyze : String → Except ApiError AnalysisResult)
       (q : List QueueItem) (cid : Option String),
      (runBatch upload analyze q cid).1 =
        q.map (fun it => if it.status = .done then it else (processItem upload analyze it).1))
    ∧ (runBatch uploadRejectsB analyzeOk batch3 none).1.map
        (fun it => (it.status, it.error)) =
        [(.done, none), (.error, some "boom"), (.done, none)]
    ∧ totalCount (runBatch uploadRejectsB analyzeOk batch3 none).1 = 3
    ∧ doneCount (runBatch uploadRejectsB analyzeOk batch3 none).1 = 2
    ∧ errorCount (runBatch uploadRejectsB analyzeOk batch3 none).1 = 1 := by
  refine ⟨fun upload analyze q cid => runBatchAux_queue upload analyze q 0 cid,
    ?_, ?_, ?_, ?_⟩ <;> decide

/-! ### C6 — error clearing on retry -/

/-- C6 counterexample: a batch item that previously ended in `error` with
message "Failed" and whose retry succeeds ends with status `done` but still
carries the stale error text — the retry's partial updates never clear the
stored message. -/
theorem runBatch_retry_keeps_stale_error :
    (runBatch uploadOk analyzeOk [erroredItem] none).1.map
      (fun it => (it.status, it.error)) = [(.done, some "Failed")] := by
  decide

/-- C6 (amended): re-invoking the single-image pipeline clears the session
error at the start, so a successful re-run ends with no error regardless of
the previous state; but re-running a batch item that previously ended in
error does not clear its stored message — the partial status updates never
write the `error` field on the success path, so an item that succeeds on
retry completes as `done` while retaining the stale error text. -/
theorem error_clearing_per_attempt :
    (∀ (upload : BrowserFile → Except ApiError ImageUploadResponse)
       (analyze : String → Except ApiError AnalysisResult)
       (s : AppState) (file : BrowserFile) (u : ImageUploadResponse) (r : AnalysisResult),
      upload file = .ok u → analyze u.image_id = .ok r →
      (runAnalysis upload analyze (some file) s).1.error = none)
    ∧ (∀ (upload : BrowserFile → Except ApiError ImageUploadResponse)
       (analyze : String → Except ApiError AnalysisResult)
       (it : QueueItem) (u : ImageUploadResponse) (r : AnalysisResult),
      upload it.file = .ok u → analyze u.image_id = .ok r →
      (processItem upload analyze it).1.status = .done
        ∧ (processItem upload analyze it).1.error = it.error) := by
  constructor
  · intro upload analyze s file u r h1 h2
    simp [runAnalysis, h1, h2, setError, setIsUploading, setIsAnalyzing,
      setUploadedImage, setCurrentImageId, setAnalysisResult]
  · intro upload analyze it u r h1 h2
    rw [processItem_success upload analyze it u r h1 h2]
    exact ⟨rfl, rfl⟩

/-- C6 witness: the amended theorem applied at concrete collaborators — the
pipeline re-run ends with no error even from a state that had one, and the
retried batch item ends `done` while keeping `some "Failed"`. -/
theorem error_clearing_per_attempt_witness :
    (runAnalysis uploadOk analyzeOk (some (sampleFile "a"))
        { initialState with error := some "old error" }).1.error = none
    ∧ (processItem uploadOk analyzeOk erroredItem).1.status = .done
    ∧ (processItem uploadOk analyzeOk erroredItem).1.error = some "Failed" := by
  refine ⟨?_, ?_, ?_⟩
  · exact error_clearing_per_attempt.1 uploadOk analyzeOk _ (sampleFile "a")
      (sampleUploadResp "id_a") (sampleAnalysis "id_a" (1/2) false) rfl rfl
  · exact (error_clearing_per_attempt.2 uploadOk analyzeOk erroredItem
      (sampleUploadResp "id_a") (sampleAnalysis "id_a" (1/2) false) rfl rfl).1
  · exact (error_clearing_per_attempt.2 uploadOk analyzeOk erroredItem
      (sampleUploadResp "id_a") (sampleAnalysis "id_a" (1/2) false) rfl rfl).2

/-! ### C9 — re-running the queue skips `done` items -/

/-- C9: a `runAll` pass keeps the queue length; an item already `done` is
returned untouched and no call is logged at its index; an item whose status
is `queued` or `error` is re-processed by its own loop body — in particular
its upload call is issued. -/
theorem runBatch_skips_done_items
    (upload : BrowserFile → Except ApiError ImageUploadResponse)
    (analyze : String → Except ApiError AnalysisResult)
    (q : List QueueItem) (cid : Option String) (i : Nat) (h : i < q.length) :
    (runBatch upload analyze q cid).1.length = q.length
    ∧ ((q.get ⟨i, h⟩).status = .done →
        (runBatch upload analyze q cid).1[i]? = some (q.get ⟨i, h⟩)
        ∧ ∀ c, (i, c) ∉ (runBatch upload analyze q cid).2.2)
    ∧ ((q.get ⟨i, h⟩).status = .queued ∨ (q.get ⟨i, h⟩).status = .error →
        (runBatch upload analyze q cid).1[i]? =
          some (processItem upload analyze (q.get ⟨i, h⟩)).1
        ∧ (i, ApiCall.upload (q.get ⟨i, h⟩).file) ∈ (runBatch upload analyze q cid).2.2) := by
  have hq : (runBatch upload analyze q cid).1 =
      q.map (fun it => if it.status = .done then it else (processItem upload analyze it).1) :=
    runBatchAux_queue upload analyze q 0 cid
  have hlog : (runBatch upload analyze q cid).2.2 = batchLog upload analyze 0 q :=
    runBatchAux_log upload analyze q 0 cid
  have hgetq : q[i]? = some (q.get ⟨i, h⟩) := by
    rw [List.getElem?_eq_getElem h]
    simp [List.get_eq_getElem]
  refine ⟨by rw [hq, List.length_map], fun hdone => ⟨?_, ?_⟩, fun hother => ⟨?_, ?_⟩⟩
  · rw [hq, List.getElem?_map, hgetq, Option.map_some']
    rw [if_pos hdone]
  · intro c hc
    rw [hlog, batchLog_mem] at hc
    obtain ⟨j, hj, hij, hnd, -⟩ := hc
    have hji : j = i := by omega
    subst hji
    exact hnd hdone
  · have hne : ¬(q.get ⟨i, h⟩).status = .done := by
      rcases hother with h1 | h1 <;> rw [h1] <;> decide
    rw [hq, List.getElem?_map, hgetq, Option.map_some']
    rw [if_neg hne]
  · have hne : ¬(q.get ⟨i, h⟩).status = .done := by
      rcases hother with h1 | h1 <;> rw [h1] <;> decide
    rw [hlog, batchLog_mem]
    exact ⟨i, h, by omega, hne, processItem_upload_call_mem upload analyze _⟩

/-- C9 witness: on the concrete queue `[done item, errored item]`, the pass
leaves the `done` item untouched and issues no call at index 0, while the
errored item is re-processed and its upload call is issued at index 1. -/
theorem runBatch_skips_done_items_witness :
    (runBatch uploadOk analyzeOk
        [{ queuedItem "d" with status := BatchStatus.done }, erroredItem] none).1[0]? =
      some { queuedItem "d" with status := BatchStatus.done }
    ∧ ((0 : Nat), ApiCall.upload (sampleFile "d")) ∉
        (runBatch uploadOk analyzeOk
          [{ queuedItem "d" with status := BatchStatus.done }, erroredItem] none).2.2
    ∧ (runBatch uploadOk analyzeOk
        [{ queuedItem "d" with status := BatchStatus.done }, erroredItem] none).1[1]? =
      some (processItem uploadOk analyzeOk erroredItem).1
    ∧ ((1 : Nat), ApiCall.upload erroredItem.file) ∈
        (runBatch uploadOk analyzeOk
          [{ queuedItem "d" with status := BatchStatus.done }, erroredItem] none).2.2 := by
  have h0 := runBatch_skips_done_items uploadOk analyzeOk
    [{ queuedItem "d" with status := BatchStatus.done }, erroredItem] none 0 (by decide)
  have h1 := runBatch_skips_done_items uploadOk analyzeOk
    [{ queuedItem "d" with status := BatchStatus.done }, erroredItem] none 1 (by decide)
  exact ⟨(h0.2.1 rfl).1, (h0.2.1 rfl).2 _, (h1.2.2 (Or.inr rfl)).1, (h1.2.2 (Or.inr rfl)).2⟩

/-! ### C10 — the batch loop overwrites the shared session's current id -/

/-- C10: a `runAll` pass leaves the session's `currentImageId` at the image
id of the last successfully uploaded (non-skipped) batch item; when no upload
succeeds the starting value survives. Batch processing is therefore not
isolated from the single-image session state. -/
theorem runBatch_overwrites_currentImageId
    (upload : BrowserFile → Except ApiError ImageUploadResponse)
    (analyze : String → Except ApiError AnalysisResult)
    (q : List QueueItem) (cid : Option String) :
    (succUploadIds upload q = [] → (runBatch upload analyze q cid).2.1 = cid)
    ∧ (∀ id, (succUploadIds upload q).getLast? = some id →
        (runBatch upload analyze q cid).2.1 = some id) := by
  have hc : (runBatch upload analyze q cid).2.1 =
      ((succUploadIds upload q).getLast?).elim cid some := by
    rw [show (runBatch upload analyze q cid).2.1 = lastCid upload cid q from
      runBatchAux_cid upload analyze q 0 cid]
    exact lastCid_eq_getLast upload q cid
  constructor
  · intro hnil
    rw [hc, hnil]
    rfl
  · intro id hlast
    rw [hc, hlast]
    rfl

/-- C10 witness: with the second item's upload rejecting, the run ends with
`currentImageId = some "id_c"` (the last successful upload); with every
upload rejecting, the previous id survives. -/
theorem runBatch_overwrites_currentImageId_witness :
    (runBatch uploadRejectsB analyzeOk batch3 none).2.1 = some "id_c"
    ∧ (runBatch uploadRejects analyzeOk batch3 (some "old")).2.1 = some "old" := by
  constructor
  · exact (runBatch_overwrites_currentImageId uploadRejectsB analyzeOk batch3 none).2
      "id_c" (by decide)
  · exact (runBatch_overwrites_currentImageId uploadRejects analyzeOk batch3
      (some "old")).1 (by decide)

/-! ### Association list lemmas for the JS record embedding -/

/-- A key is absent exactly when lookup yields `none`. -/
theorem lookupEntry_eq_none {α β : Type} [DecidableEq α] :
    ∀ (m : List (α × β)) (k : α), lookupEntry m k = none ↔ k ∉ m.map Prod.fst
  | [], k => by simp [lookupEntry]
  | p :: rest, k => by
    by_cases h : p.1 = k
    · simp [lookupEntry, List.find?, h]
    · rw [show lookupEntry (p :: rest) k = lookupEntry rest k from by
        simp [lookupEntry, List.find?, h]]
      rw [lookupEntry_eq_none rest k]
      simp [Ne.symm h, h]

/-- A successful lookup means the key is present. -/
theorem lookupEntry_mem_keys {α β : Type} [DecidableEq α] {m : List (α × β)} {k : α}
    {v : β} (h : lookupEntry m k = some v) : k ∈ m.map Prod.fst := by
  by_contra hk
  rw [← lookupEntry_eq_none m k] at hk
  rw [h] at hk
  exact Option.noConfusion hk

/-- Lookup distributes over append, preferring the left list. -/
theorem lookupEntry_append {α β : Type} [DecidableEq α] :
    ∀ (m₁ m₂ : List (α × β)) (k : α),
      lookupEntry (m₁ ++ m₂) k =
        match lookupEntry m₁ k with
        | some v => some v
        | none => lookupEntry m₂ k
  | [], m₂, k => by simp [lookupEntry]
  | p :: rest, m₂, k => by
    by_cases h : p.1 = k
    · simp [lookupEntry, List.find?, h]
    · have h1 : lookupEntry ((p :: rest) ++ m₂) k = lookupEntry (rest ++ m₂) k := by
        simp [lookupEntry, List.find?, h]
      have h2 : lookupEntry (p :: rest) k = lookupEntry rest k := by
        simp [lookupEntry, List.find?, h]
      rw [h1, h2, lookupEntry_append rest m₂ k]

/-- A hit in the left list survives appending. -/
theorem lookupEntry_append_some {α β : Type} [DecidableEq α] {m₁ : List (α × β)}
    (m₂ : List (α × β)) {k : α} {v : β} (h : lookupEntry m₁ k = some v) :
    lookupEntry (m₁ ++ m₂) k = some v := by
  rw [lookupEntry_append, h]

/-- A miss in the left list defers to the right list. -/
theorem lookupEntry_append_none {α β : Type} [DecidableEq α] {m₁ : List (α × β)}
    (m₂ : List (α × β)) {k : α} (h : lookupEntry m₁ k = none) :
    lookupEntry (m₁ ++ m₂) k = lookupEntry m₂ k := by
  rw [lookupEntry_append, h]

/-- Decompose a lookup over an append. -/
theorem lookupEntry_append_cases {α β : Type} [DecidableEq α] {m₁ m₂ : List (α × β)}
    {k : α} {v : β} (h : lookupEntry (m₁ ++ m₂) k = some v) :
    lookupEntry m₁ k = some v ∨ (lookupEntry m₁ k = none ∧ lookupEntry m₂ k = some v) := by
  rw [lookupEntry_append] at h
  cases h1 : lookupEntry m₁ k with
  | some w =>
    rw [h1] at h
    exact Or.inl h
  | none => rw [h1] at h; exact Or.inr ⟨rfl, h⟩

/-- Lookup in a constant-valued keyed list. -/
theorem lookupEntry_constMap {α β : Type} [DecidableEq α] (a : β) :
    ∀ (l : List α) (k : α),
      lookupEntry (l.map (fun c => (c, a))) k = if k ∈ l then some a else none
  | [], k => by simp [lookupEntry]
  | c :: cs, k => by
    by_cases h : c = k
    · subst h
      simp [lookupEntry, List.find?]
    · rw [show lookupEntry ((c :: cs).map (fun c => (c, a))) k =
          lookupEntry (cs.map (fun c => (c, a))) k from by
        simp [lookupEntry, List.find?, h]]
      rw [lookupEntry_constMap a cs k]
      simp [Ne.symm h, h]

/-! ### Forward path lemmas -/

/-- A zero-length path stays put. -/
theorem pathlen_zero {adj : String → List String} {u v : String}
    (h : PathLen adj u v 0) : u = v := by
  cases h
  rfl

/-- Extend a path by one edge at the far end. -/
theorem pathlen_snoc {adj : String → List String} {r p v : String} {n : Nat}
    (h : PathLen adj r p n) (hv : v ∈ adj p) : PathLen adj r v (n + 1) := by
  induction h with
  | refl u => exact .step hv (.refl v)
  | step h' _ ih => exact .step h' (ih hv)

/-- Decompose a positive-length path at its last edge. -/
theorem pathlen_succ_inv {adj : String → List String} :
    ∀ {n : Nat} {r v : String}, PathLen adj r v (n + 1) →
      ∃ p, PathLen adj r p n ∧ v ∈ adj p := by
  intro n
  induction n with
  | zero =>
    intro r v h
    cases h with
    | step h' p' =>
      have := pathlen_zero p'
      subst this
      exact ⟨r, .refl r, h'⟩
  | succ m ih =>
    intro r v h
    cases h with
    | step h' p' =>
      obtain ⟨p, hp, hv⟩ := ih p'
      exact ⟨p, .step h' hp, hv⟩

/-- Any path endpoint is the start or some node's listed child. -/
theorem pathlen_endpoint {adj : String → List String} {r v : String} {n : Nat}
    (h : PathLen adj r v n) : v = r ∨ ∃ u, v ∈ adj u := by
  cases n with
  | zero => exact Or.inl (pathlen_zero h).symm
  | succ m =>
    obtain ⟨p, -, hv⟩ := pathlen_succ_inv h
    exact Or.inr ⟨p, hv⟩

/-- Children produced by `buildAdj` are targets of the edge list. -/
theorem buildAdj_mem_targets {edges : List ProvenanceEdge} {u v : String}
    (h : v ∈ buildAdj edges u) : v ∈ edges.map (fun e => e.target) := by
  simp only [buildAdj, List.mem_map] at h
  obtain ⟨e, he, rfl⟩ := h
  exact List.mem_map.mpr ⟨e, List.mem_of_mem_filter he, rfl⟩

/-! ### The BFS inner loop -/

/-- Complete characterization of the BFS inner loop: visiting the children
list appends exactly its fresh members (first occurrence each), in order, to
the level map at `curLevel + 1` and to the queue. -/
theorem visitChildren_spec (L : Nat) :
    ∀ (cs : List String) (lm : List (String × Nat)) (q0 : List String),
      (lm.map Prod.fst).Nodup →
      ∃ news : List String,
        (visitChildren L cs lm q0).1 = lm ++ news.map (fun c => (c, L + 1))
        ∧ (visitChildren L cs lm q0).2 = q0 ++ news
        ∧ news.Nodup
        ∧ (∀ c ∈ news, c ∈ cs ∧ lookupEntry lm c = none)
        ∧ (∀ c ∈ cs, lookupEntry lm c = none → c ∈ news)
        ∧ ((lm ++ news.map (fun c => (c, L + 1))).map Prod.fst).Nodup
  | [], lm, q0, hnd =>
    ⟨[], by simp [visitChildren], by simp [visitChildren], List.nodup_nil,
      by simp, by simp, by simpa using hnd⟩
  | c :: cs, lm, q0, hnd => by
    by_cases h : (lookupEntry lm c).isSome
    · rw [show visitChildren L (c :: cs) lm q0 = visitChildren L cs lm q0 from by
        simp [visitChildren, h]]
      obtain ⟨news, h1, h2, h3, h4, h5, h6⟩ := visitChildren_spec L cs lm q0 hnd
      refine ⟨news, h1, h2, h3, ?_, ?_, h6⟩
      · intro x hx
        exact ⟨List.mem_cons_of_mem _ (h4 x hx).1, (h4 x hx).2⟩
      · intro x hx hnone
        rcases List.mem_cons.mp hx with rfl | hx'
        · rw [hnone] at h
          simp at h
        · exact h5 x hx' hnone
    · have hcnone : lookupEntry lm c = none := by
        cases hh : lookupEntry lm c with
        | none => rfl
        | some w => rw [hh] at h; simp at h
      rw [show visitChildren L (c :: cs) lm q0 =
          visitChildren L cs (lm ++ [(c, L + 1)]) (q0 ++ [c]) from by
        simp [visitChildren, h]]
      have hcnotmem : c ∉ lm.map Prod.fst := (lookupEntry_eq_none lm c).mp hcnone
      have hnd1 : ((lm ++ [(c, L + 1)]).map Prod.fst).Nodup := by
        rw [List.map_append]
        rw [List.nodup_append]
        exact ⟨hnd, List.nodup_singleton c, by simpa using hcnotmem⟩
      obtain ⟨news, h1, h2, h3, h4, h5, h6⟩ :=
        visitChildren_spec L cs (lm ++ [(c, L + 1)]) (q0 ++ [c]) hnd1
      have hlooksingle : lookupEntry [(c, L + 1)] c = some (L + 1) := by
        simp [lookupEntry, List.find?]
      refine ⟨c :: news, ?_, ?_, ?_, ?_, ?_, ?_⟩
      · rw [h1, List.map_cons, List.append_assoc]
        rfl
      · rw [h2, List.append_assoc]
        rfl
      · refine List.Nodup.cons ?_ h3
        intro hc
        have := (h4 c hc).2
        rw [lookupEntry_append_none _ hcnone] at this
        rw [hlooksingle] at this
        exact Option.noConfusion this
      · intro x hx
        rcases List.mem_cons.mp hx with rfl | hx'
        · exact ⟨List.mem_cons_self _ _, hcnone⟩
        · have hxn := (h4 x hx').2
          refine ⟨List.mem_cons_of_mem _ (h4 x hx').1, ?_⟩
          cases hlx : lookupEntry lm x with
          | none => rfl
          | some w =>
            rw [lookupEntry_append_some _ hlx] at hxn
            exact Option.noConfusion hxn
      · intro x hx hnone
        rcases List.mem_cons.mp hx with rfl | hx'
        · exact List.mem_cons_self _ _
        · cases hlx : lookupEntry (lm ++ [(c, L + 1)]) x with
          | none => exact List.mem_cons_of_mem _ (h5 x hx' hlx)
          | some w =>
            rcases lookupEntry_append_cases hlx with hA | ⟨-, hB⟩
            · rw [hnone] at hA
              exact Option.noConfusion hA
            · have hxc : x = c := by
                by_contra hxc
                have : lookupEntry [(c, L + 1)] x = none := by
                  simp [lookupEntry, List.find?, Ne.symm hxc, hxc]
                rw [this] at hB
                exact Option.noConfusion hB
              subst hxc
              exact List.mem_cons_self _ _
      · simpa using h6

/-- At any state satisfying the invariant, a forward path from the root
either ends at a visited node, or passes through a queued node whose level
plus remaining distance is within the path length. -/
theorem bfs_reach_cases {adj : String → List String} {root : String}
    {targets : List String} {q : List String} {lm : List (String × Nat)}
    (inv : BfsInv adj root targets q lm) :
    ∀ (m : Nat) (v : String), PathLen adj root v m →
      (∃ kv, lookupEntry lm v = some kv)
      ∨ ∃ u ku j, u ∈ q ∧ lookupEntry lm u = some ku ∧ PathLen adj u v j
          ∧ 1 ≤ j ∧ ku + j ≤ m := by
  intro m
  induction m with
  | zero =>
    intro v h
    have hrv : root = v := pathlen_zero h
    subst hrv
    exact Or.inl ⟨0, inv.rootMem⟩
  | succ n ih =>
    intro v h
    obtain ⟨p, hp, hv⟩ := pathlen_succ_inv h
    rcases ih p hp with ⟨kp, hkp⟩ | ⟨u, ku, j, hu, hku, huv, hj1, hjm⟩
    · by_cases hq : p ∈ q
      · refine Or.inr ⟨p, kp, 1, hq, hkp, .step hv (.refl v), le_refl 1, ?_⟩
        have := inv.minim p kp hkp n hp
        omega
      · obtain ⟨kv, hkv, -⟩ := inv.closed p kp hkp hq v hv
        exact Or.inl ⟨kv, hkv⟩
    · exact Or.inr ⟨u, ku, j + 1, hu, hku, pathlen_snoc huv hv, by omega, by omega⟩

/-- With the invariant, every queued node's level lies between the queue
head's level and that level plus one. -/
theorem bfs_queue_levels {adj : String → List String} {root : String}
    {targets : List String} {cur : String} {rest : List String}
    {lm : List (String × Nat)} (inv : BfsInv adj root targets (cur :: rest) lm)
    {L : Nat} (hcur : lookupEntry lm cur = some L) :
    ∀ u ∈ cur :: rest, ∀ ku, lookupEntry lm u = some ku → L ≤ ku ∧ ku ≤ L + 1 := by
  obtain ⟨L0, qa, qb, hsplit, hqa, hqb⟩ := inv.levels
  cases qa with
  | nil =>
    have hq : qb = cur :: rest := by simpa using hsplit.symm
    have hcur0 : lookupEntry lm cur = some (L0 + 1) :=
      hqb cur (hq ▸ List.mem_cons_self cur rest)
    have hL : L = L0 + 1 := Option.some.inj (hcur.symm.trans hcur0)
    intro u hu ku hku
    have hu0 : lookupEntry lm u = some (L0 + 1) := hqb u (hq ▸ hu)
    have : ku = L0 + 1 := Option.some.inj (hku.symm.trans hu0)
    omega
  | cons a qa' =>
    have hca : cur = a ∧ rest = qa' ++ qb := by
      have : cur :: rest = a :: (qa' ++ qb) := by simpa using hsplit
      exact ⟨List.head_eq_of_cons_eq this, List.tail_eq_of_cons_eq this⟩
    obtain ⟨rfl, hrest⟩ := hca
    have hcur0 : lookupEntry lm cur = some L0 := hqa cur (List.mem_cons_self cur qa')
    have hL : L = L0 := Option.some.inj (hcur.symm.trans hcur0)
    intro u hu ku hku
    rcases List.mem_cons.mp hu with rfl | hu'
    · have : ku = L0 := Option.some.inj (hku.symm.trans hcur0)
      omega
    · rw [hrest] at hu'
      rcases List.mem_append.mp hu' with ha | hb
      · have : ku = L0 := Option.some.inj (hku.symm.trans (hqa u (List.mem_cons_of_mem _ ha)))
        omega
      · have : ku = L0 + 1 := Option.some.inj (hku.symm.trans (hqb u hb))
        omega

/-- One dequeue step of the BFS preserves the invariant. -/
theorem bfs_step_inv {adj : String → List String} {root : String} {targets : List String}
    (hadj : ∀ u, ∀ v ∈ adj u, v ∈ targets)
    {cur : String} {rest : List String} {lm : List (String × Nat)}
    (inv : BfsInv adj root targets (cur :: rest) lm)
    {L : Nat} (hcur : lookupEntry lm cur = some L) :
    BfsInv adj root targets
      (visitChildren L (adj cur) lm rest).2
      (visitChildren L (adj cur) lm rest).1 := by
  obtain ⟨news, h1, h2, h3, h4, h5, h6⟩ := visitChildren_spec L (adj cur) lm rest inv.nodupKeys
  rw [h1, h2]
  have hpres : ∀ v kv, lookupEntry lm v = some kv →
      lookupEntry (lm ++ news.map (fun c => (c, L + 1))) v = some kv :=
    fun v kv h => lookupEntry_append_some _ h
  have hnew : ∀ c ∈ news,
      lookupEntry (lm ++ news.map (fun c => (c, L + 1))) c = some (L + 1) := by
    intro c hc
    rw [lookupEntry_append_none _ (h4 c hc).2, lookupEntry_constMap, if_pos hc]
  have hcases : ∀ v l, lookupEntry (lm ++ news.map (fun c => (c, L + 1))) v = some l →
      lookupEntry lm v = some l ∨ (v ∈ news ∧ l = L + 1) := by
    intro v l h
    rcases lookupEntry_append_cases h with hA | ⟨-, hB⟩
    · exact Or.inl hA
    · rw [lookupEntry_constMap] at hB
      by_cases hv : v ∈ news
      · rw [if_pos hv] at hB
        exact Or.inr ⟨hv, (Option.some.inj hB).symm⟩
      · rw [if_neg hv] at hB
        exact Option.noConfusion hB
  have hsoundcur : PathLen adj root cur L := inv.sound cur L hcur
  refine ⟨h6, hpres root 0 inv.rootMem, ?_, ?_, ?_, ?_, ?_, ?_, ?_⟩
  · -- keySrc
    intro k hk
    rw [List.map_append] at hk
    rcases List.mem_append.mp hk with hA | hB
    · exact inv.keySrc k hA
    · have hkn : k ∈ news := by simpa using hB
      exact Or.inr (hadj cur k (h4 k hkn).1)
  · -- qSub
    intro u hu
    rcases List.mem_append.mp hu with hA | hB
    · obtain ⟨l, hl⟩ := inv.qSub u (List.mem_cons_of_mem cur hA)
      exact ⟨l, hpres u l hl⟩
    · exact ⟨L + 1, hnew u hB⟩
  · -- qNodup
    refine List.Nodup.append (inv.qNodup.of_cons) h3 ?_
    intro x hx1 hx2
    obtain ⟨l, hl⟩ := inv.qSub x (List.mem_cons_of_mem cur hx1)
    rw [(h4 x hx2).2] at hl
    exact Option.noConfusion hl
  · -- sound
    intro v l h
    rcases hcases v l h with hA | ⟨hv, rfl⟩
    · exact inv.sound v l hA
    · exact pathlen_snoc hsoundcur (h4 v hv).1
  · -- minim
    intro v l h m hm
    rcases hcases v l h with hA | ⟨hv, rfl⟩
    · exact inv.minim v l hA m hm
    · rcases bfs_reach_cases inv m v hm with ⟨kv, hkv⟩ | ⟨u, ku, j, hu, hku, -, hj1, hjm⟩
      · rw [(h4 v hv).2] at hkv
        exact Option.noConfusion hkv
      · have := (bfs_queue_levels inv hcur u hu ku hku).1
        omega
  · -- closed
    intro a ka hka hnq b hb
    rcases hcases a ka hka with hA | ⟨ha, -⟩
    · by_cases hac : a = cur
      · subst hac
        have hkaL : ka = L := Option.some.inj (hA.symm.trans hcur)
        cases hlb : lookupEntry lm b with
        | some kb =>
          refine ⟨kb, hpres b kb hlb, ?_⟩
          have := inv.minim b kb hlb (L + 1) (pathlen_snoc hsoundcur hb)
          omega
        | none =>
          refine ⟨L + 1, hnew b (h5 b hb hlb), by omega⟩
      · have hanr : a ∉ cur :: rest := by
          intro hmem
          rcases List.mem_cons.mp hmem with rfl | hmem'
          · exact hac rfl
          · exact hnq (List.mem_append_left _ hmem')
        obtain ⟨kb, hkb, hle⟩ := inv.closed a ka hA hanr b hb
        exact ⟨kb, hpres b kb hkb, hle⟩
    · exact absurd (List.mem_append_right _ ha) hnq
  · -- levels
    obtain ⟨L0, qa, qb, hsplit, hqa, hqb⟩ := inv.levels
    cases qa with
    | nil =>
      have hq : qb = cur :: rest := by simpa using hsplit.symm
      have hL : L = L0 + 1 :=
        Option.some.inj (hcur.symm.trans (hqb cur (hq ▸ List.mem_cons_self cur rest)))
      subst hL
      refine ⟨L0 + 1, rest, news, rfl, ?_, ?_⟩
      · intro u hu
        exact hpres u (L0 + 1) (hqb u (hq ▸ List.mem_cons_of_mem cur hu))
      · intro u hu
        exact hnew u hu
    | cons a qa' =>
      have hca : cur = a ∧ rest = qa' ++ qb := by
        have : cur :: rest = a :: (qa' ++ qb) := by simpa using hsplit
        exact ⟨List.head_eq_of_cons_eq this, List.tail_eq_of_cons_eq this⟩
      obtain ⟨rfl, hrest⟩ := hca
      have hL : L = L0 :=
        Option.some.inj (hcur.symm.trans (hqa cur (List.mem_cons_self cur qa')))
      subst hL
      refine ⟨L, qa', qb ++ news, by rw [hrest, List.append_assoc], ?_, ?_⟩
      · intro u hu
        exact hpres u L (hqa u (List.mem_cons_of_mem cur hu))
      · intro u hu
        rcases List.mem_append.mp hu with hA | hB
        · exact hpres u (L + 1) (hqb u hA)
        · exact hnew u hB

/-- Lookup in a singleton record. -/
theorem lookupEntry_singleton {α β : Type} [DecidableEq α] (a : α) (b : β) (k : α) :
    lookupEntry [(a, b)] k = if a = k then some b else none := by
  by_cases h : a = k <;> simp [lookupEntry, List.find?, h]

/-- A duplicate-free list of keys drawn from the root and the edge targets is
no longer than the deduplicated target list plus one. -/
theorem keys_length_le {l : List String} {root : String} {targets : List String}
    (hnd : l.Nodup) (hsub : ∀ k ∈ l, k = root ∨ k ∈ targets) :
    l.length ≤ targets.dedup.length + 1 := by
  have hsub' : l ⊆ root :: targets.dedup := by
    intro k hk
    rcases hsub k hk with rfl | h
    · exact List.mem_cons_self _ _
    · exact List.mem_cons_of_mem _ (List.mem_dedup.mpr h)
  calc l.length = l.toFinset.card := (List.toFinset_card_of_nodup hnd).symm
    _ ≤ (root :: targets.dedup).toFinset.card := Finset.card_le_card (fun x hx => by
        rw [List.mem_toFinset] at hx ⊢
        exact hsub' hx)
    _ ≤ (root :: targets.dedup).length := List.toFinset_card_le _
    _ = targets.dedup.length + 1 := by simp

/-- When the queue is empty the invariant already gives soundness and
completeness of the level map. -/
theorem bfs_empty_queue {adj : String → List String} {root : String}
    {targets : List String} {lm : List (String × Nat)}
    (inv : BfsInv adj root targets [] lm) :
    (∀ v l, lookupEntry lm v = some l → IsBfsDist adj root v l)
    ∧ (∀ v m, PathLen adj root v m → ∃ l, lookupEntry lm v = some l) := by
  constructor
  · intro v l h
    exact ⟨inv.sound v l h, inv.minim v l h⟩
  · intro v m hm
    rcases bfs_reach_cases inv m v hm with ⟨kv, hkv⟩ | ⟨u, -, -, hu, -⟩
    · exact ⟨kv, hkv⟩
    · exact absurd hu (List.not_mem_nil u)

/-- Running the BFS loop from any invariant state with fuel at least the
loop measure yields a level map that is sound and complete for forward BFS
distances from the root. -/
theorem bfsLoop_correct {adj : String → List String} {root : String}
    {targets : List String} (hadj : ∀ u, ∀ v ∈ adj u, v ∈ targets) :
    ∀ (fuel : Nat) (q : List String) (lm : List (String × Nat)),
      BfsInv adj root targets q lm →
      q.length + (targets.dedup.length + 1 - (lm.map Prod.fst).length) ≤ fuel →
      (∀ v l, lookupEntry (bfsLoop adj fuel q lm) v = some l → IsBfsDist adj root v l)
      ∧ (∀ v m, PathLen adj root v m → ∃ l, lookupEntry (bfsLoop adj fuel q lm) v = some l) := by
  intro fuel
  induction fuel with
  | zero =>
    intro q lm inv hfuel
    have hq : q = [] := List.length_eq_zero.mp (by omega)
    subst hq
    exact bfs_empty_queue inv
  | succ fuel ih =>
    intro q lm inv hfuel
    cases q with
    | nil => exact bfs_empty_queue inv
    | cons cur rest =>
      obtain ⟨L, hL⟩ := inv.qSub cur (List.mem_cons_self cur rest)
      have hred : bfsLoop adj (fuel + 1) (cur :: rest) lm =
          bfsLoop adj fuel (visitChildren L (adj cur) lm rest).2
            (visitChildren L (adj cur) lm rest).1 := by
        simp [bfsLoop, hL]
      rw [hred]
      have inv' := bfs_step_inv hadj inv hL
      obtain ⟨news, h1, h2, -, -, -, h6⟩ :=
        visitChildren_spec L (adj cur) lm rest inv.nodupKeys
      refine ih _ _ inv' ?_
      have hkeysle : ((visitChildren L (adj cur) lm rest).1.map Prod.fst).length ≤
          targets.dedup.length + 1 :=
        keys_length_le inv'.nodupKeys inv'.keySrc
      rw [h1] at hkeysle
      rw [h1, h2]
      have e1 : ((lm ++ news.map (fun c => (c, L + 1))).map Prod.fst).length =
          lm.length + news.length := by simp
      have e2 : (rest ++ news).length = rest.length + news.length := by simp
      have e3 : (lm.map Prod.fst).length = lm.length := by simp
      rw [e1] at hkeysle
      rw [e1, e2]
      rw [e3] at hfuel
      simp only [List.length_cons] at hfuel
      omega

/-- The level map computed by `graphToFlow` is sound and complete for the
forward BFS distances from `root_node_id`. -/
theorem bfsLevels_spec (g : ProvenanceGraph) :
    (∀ v l, lookupEntry (bfsLevels g) v = some l →
      IsBfsDist (buildAdj g.edges) g.root_node_id v l)
    ∧ (∀ v m, PathLen (buildAdj g.edges) g.root_node_id v m →
      ∃ l, lookupEntry (bfsLevels g) v = some l) := by
  have hadj : ∀ u, ∀ v ∈ buildAdj g.edges u, v ∈ g.edges.map (fun e => e.target) :=
    fun u v h => buildAdj_mem_targets h
  have hroot : lookupEntry [(g.root_node_id, 0)] g.root_node_id = some 0 := by
    rw [lookupEntry_singleton, if_pos rfl]
  have hsing : ∀ v (l : Nat), lookupEntry [(g.root_node_id, 0)] v = some l →
      v = g.root_node_id ∧ l = 0 := by
    intro v l h
    rw [lookupEntry_singleton] at h
    by_cases hv : g.root_node_id = v
    · rw [if_pos hv] at h
      exact ⟨hv.symm, (Option.some.inj h).symm⟩
    · rw [if_neg hv] at h
      exact absurd h (Option.noConfusion)
  have hinv : BfsInv (buildAdj g.edges) g.root_node_id
      (g.edges.map (fun e => e.target)) [g.root_node_id] [(g.root_node_id, 0)] := by
    refine ⟨by simp, hroot, ?_, ?_, List.nodup_singleton _, ?_, ?_, ?_, ?_⟩
    · intro k hk
      exact Or.inl (by simpa using hk)
    · intro u hu
      have : u = g.root_node_id := by simpa using hu
      subst this
      exact ⟨0, hroot⟩
    · intro v l h
      obtain ⟨rfl, rfl⟩ := hsing v l h
      exact .refl _
    · intro v l h m hm
      obtain ⟨rfl, rfl⟩ := hsing v l h
      omega
    · intro a ka h ha
      obtain ⟨rfl, -⟩ := hsing a ka h
      exact absurd (List.mem_singleton_self _) ha
    · exact ⟨0, [g.root_node_id], [], rfl,
        fun u hu => by
          have : u = g.root_node_id := by simpa using hu
          subst this
          exact hroot,
        fun u hu => absurd hu (List.not_mem_nil u)⟩
  have hfuel : ([g.root_node_id].length) +
      ((g.edges.map (fun e => e.target)).dedup.length + 1 -
        (([(g.root_node_id, 0)]).map Prod.fst).length) ≤ g.edges.length + 1 := by
    have hd : (g.edges.map (fun e => e.target)).dedup.length ≤ g.edges.length := by
      have := (List.dedup_sublist (g.edges.map (fun e => e.target))).length_le
      simpa using this
    simp only [List.length_singleton, List.length_map]
    omega
  exact bfsLoop_correct hadj (g.edges.length + 1) _ _ hinv hfuel

/-! ### C4 — BFS level assignment of the layout -/

/-- C4: the layout's level assignment. The root always receives level 0; the
levels do not depend on the node list (so not on node ordering); a node at
forward-edge BFS distance `d` from the root receives level exactly `d`
(conversely every assigned level is the BFS distance, which also shows the
traversal terminates correctly on cyclic edge sets since each node is
leveled on first discovery only); and a node the traversal never visits —
one not reachable from the root via forward edges — has no level-map entry
and receives the default level 0. -/
theorem graphToFlow_levels (g : ProvenanceGraph) :
    nodeLevel g g.root_node_id = 0
    ∧ (∀ ns, bfsLevels { g with nodes := ns } = bfsLevels g)
    ∧ (∀ v d, IsBfsDist (buildAdj g.edges) g.root_node_id v d → nodeLevel g v = d)
    ∧ (∀ v l, lookupEntry (bfsLevels g) v = some l →
        IsBfsDist (buildAdj g.edges) g.root_node_id v l)
    ∧ (∀ v, ¬ ReachesF (buildAdj g.edges) g.root_node_id v →
        lookupEntry (bfsLevels g) v = none ∧ nodeLevel g v = 0) := by
  obtain ⟨hsound, hcomp⟩ := bfsLevels_spec g
  refine ⟨?_, fun ns => rfl, ?_, hsound, ?_⟩
  · obtain ⟨l, hl⟩ := hcomp g.root_node_id 0 (.refl _)
    have h0 : l = 0 := Nat.le_zero.mp ((hsound _ _ hl).2 0 (.refl _))
    rw [nodeLevel, hl, h0]
    rfl
  · intro v d hd
    obtain ⟨l, hl⟩ := hcomp v d hd.1
    have hld : l ≤ d := (hsound v l hl).2 d hd.1
    have hdl : d ≤ l := hd.2 l (hsound v l hl).1
    rw [nodeLevel, hl]
    show l = d
    omega
  · intro v hv
    have hnone : lookupEntry (bfsLevels g) v = none := by
      cases h : lookupEntry (bfsLevels g) v with
      | none => rfl
      | some l => exact absurd ⟨l, (hsound v l h).1⟩ hv
    refine ⟨hnone, ?_⟩
    rw [nodeLevel, hnone]
    rfl

/-- C4 witness: on the sample graph `r → a → b` with disconnected `z`, the
theorem yields level 0 for the root, levels 1 and 2 for the nodes at BFS
distances 1 and 2, and the default level 0 with no map entry for `z`. -/
theorem graphToFlow_levels_witness :
    nodeLevel sampleGraph "r" = 0
    ∧ nodeLevel sampleGraph "a" = 1
    ∧ nodeLevel sampleGraph "b" = 2
    ∧ lookupEntry (bfsLevels sampleGraph) "z" = none
    ∧ nodeLevel sampleGraph "z" = 0 := by
  have h := graphToFlow_levels sampleGraph
  have hmemA : "a" ∈ buildAdj sampleGraph.edges "r" := by decide
  have hmemB : "b" ∈ buildAdj sampleGraph.edges "a" := by decide
  have hdistA : IsBfsDist (buildAdj sampleGraph.edges) "r" "a" 1 := by
    refine ⟨.step hmemA (.refl "a"), ?_⟩
    intro m hm
    cases m with
    | zero => exact absurd (pathlen_zero hm) (by decide)
    | succ m' => omega
  have hdistB : IsBfsDist (buildAdj sampleGraph.edges) "r" "b" 2 := by
    refine ⟨.step hmemA (.step hmemB (.refl "b")), ?_⟩
    intro m hm
    cases m with
    | zero => exact absurd (pathlen_zero hm) (by decide)
    | succ m' =>
      cases m' with
      | zero =>
        obtain ⟨p, hp0, hb⟩ := pathlen_succ_inv hm
        have hpr : "r" = p := pathlen_zero hp0
        subst hpr
        exact absurd hb (by decide)
      | succ m'' => omega
  have hunz : ¬ ReachesF (buildAdj sampleGraph.edges) "r" "z" := by
    rintro ⟨n, hn⟩
    rcases pathlen_endpoint hn with hz | ⟨u, hu⟩
    · exact absurd hz (by decide)
    · exact absurd (buildAdj_mem_targets hu) (by decide)
  exact ⟨h.1, h.2.2.1 "a" 1 hdistA, h.2.2.1 "b" 2 hdistB,
    (h.2.2.2.2 "z" hunz).1, (h.2.2.2.2 "z" hunz).2⟩

/-! ### Level-table lemmas for the coordinate assignment -/

/-- Assignment then lookup of the same key. -/
theorem lookupEntry_setEntry_self {α β : Type} [DecidableEq α] :
    ∀ (m : List (α × β)) (k : α) (v : β), lookupEntry (setEntry m k v) k = some v
  | [], k, v => by simp [setEntry, lookupEntry, List.find?]
  | p :: rest, k, v => by
    by_cases h : p.1 = k
    · simp [setEntry, h, lookupEntry, List.find?]
    · rw [show setEntry (p :: rest) k v = p :: setEntry rest k v from by simp [setEntry, h]]
      rw [show lookupEntry (p :: setEntry rest k v) k = lookupEntry (setEntry rest k v) k from by
        simp [lookupEntry, List.find?, h]]
      exact lookupEntry_setEntry_self rest k v

/-- Assignment leaves lookups of other keys unchanged. -/
theorem lookupEntry_setEntry_ne {α β : Type} [DecidableEq α] :
    ∀ (m : List (α × β)) (k k' : α) (v : β), k' ≠ k →
      lookupEntry (setEntry m k v) k' = lookupEntry m k'
  | [], k, k', v, h => by
    have hkk : ¬ (k = k') := fun hh => h hh.symm
    rw [show setEntry ([] : List (α × β)) k v = [(k, v)] from rfl, lookupEntry_singleton,
      if_neg hkk]
    simp [lookupEntry]
  | p :: rest, k, k', v, h => by
    have hkk : ¬ (k = k') := fun hh => h hh.symm
    by_cases hp : p.1 = k
    · rw [show setEntry (p :: rest) k v = (k, v) :: rest from by simp [setEntry, hp]]
      have hpk : ¬ (p.1 = k') := by rw [hp]; exact hkk
      rw [show lookupEntry ((k, v) :: rest) k' = lookupEntry rest k' from by
        simp [lookupEntry, List.find?, hkk]]
      rw [show lookupEntry (p :: rest) k' = lookupEntry rest k' from by
        simp [lookupEntry, List.find?, hpk]]
    · rw [show setEntry (p :: rest) k v = p :: setEntry rest k v from by simp [setEntry, hp]]
      by_cases hk : p.1 = k'
      · simp [lookupEntry, List.find?, hk]
      · rw [show lookupEntry (p :: setEntry rest k v) k' = lookupEntry (setEntry rest k v) k' from by
          simp [lookupEntry, List.find?, hk]]
        rw [show lookupEntry (p :: rest) k' = lookupEntry rest k' from by
          simp [lookupEntry, List.find?, hk]]
        exact lookupEntry_setEntry_ne rest k k' v h

/-- Invariant of the `forEach` that builds the level tables: after processing
a prefix `p`, the count table holds the per-level occurrence counts of `p`
and the index table maps each id of `p` to the number of earlier same-level
nodes; folding the remaining nodes extends this to the whole list. -/
theorem foldl_idxStep_spec (lvl : String → Nat) :
    ∀ (rest p : List ProvenanceNode) (acc : List (Nat × Nat) × List (String × Nat)),
      ((p ++ rest).map (fun n => n.id)).Nodup →
      (∀ lv, lookupEntry acc.1 lv =
        if p.countP (fun m => lvl m.id = lv) = 0 then none
        else some (p.countP (fun m => lvl m.id = lv))) →
      (∀ (j : Nat) (x : ProvenanceNode), p[j]? = some x →
        lookupEntry acc.2 x.id =
          some ((p.take j).countP (fun m => lvl m.id = lvl x.id))) →
      (∀ x, x ∉ p.map (fun n => n.id) → lookupEntry acc.2 x = none) →
      (∀ lv, lookupEntry (rest.foldl (idxStep lvl) acc).1 lv =
        if (p ++ rest).countP (fun m => lvl m.id = lv) = 0 then none
        else some ((p ++ rest).countP (fun m => lvl m.id = lv)))
      ∧ (∀ (j : Nat) (x : ProvenanceNode), (p ++ rest)[j]? = some x →
          lookupEntry (rest.foldl (idxStep lvl) acc).2 x.id =
            some (((p ++ rest).take j).countP (fun m => lvl m.id = lvl x.id))) := by
  intro rest
  induction rest with
  | nil =>
    intro p acc hnd hc hi hf
    constructor
    · intro lv
      simpa using hc lv
    · intro j x hx
      rw [List.append_nil] at hx
      simpa using hi j x hx
  | cons n rest' ih =>
    intro p acc hnd hc hi hf
    have hnid : n.id ∉ p.map (fun m => m.id) := by
      rw [List.map_append] at hnd
      have hdisj := (List.nodup_append.mp hnd).2.2
      intro hmem
      exact hdisj hmem (by simp)
    have hcur : (lookupEntry acc.1 (lvl n.id)).getD 0 =
        p.countP (fun m => lvl m.id = lvl n.id) := by
      rw [hc (lvl n.id)]
      split
      · simp
        omega
      · rfl
    have hassoc : p ++ n :: rest' = (p ++ [n]) ++ rest' := by simp
    rw [show (n :: rest').foldl (idxStep lvl) acc =
        rest'.foldl (idxStep lvl) (idxStep lvl acc n) from rfl, hassoc]
    refine ih (p ++ [n]) (idxStep lvl acc n) (by rw [← hassoc]; exact hnd) ?_ ?_ ?_
    · -- counts over p ++ [n]
      intro lv
      by_cases hlv : lv = lvl n.id
      · subst hlv
        rw [show (idxStep lvl acc n).1 =
            setEntry acc.1 (lvl n.id) ((lookupEntry acc.1 (lvl n.id)).getD 0 + 1) from rfl]
        rw [lookupEntry_setEntry_self, hcur]
        have hcnt : (p ++ [n]).countP (fun m => lvl m.id = lvl n.id) =
            p.countP (fun m => lvl m.id = lvl n.id) + 1 := by
          rw [List.countP_append]
          simp
        rw [hcnt, if_neg (by omega)]
      · rw [show (idxStep lvl acc n).1 =
            setEntry acc.1 (lvl n.id) ((lookupEntry acc.1 (lvl n.id)).getD 0 + 1) from rfl]
        rw [lookupEntry_setEntry_ne _ _ _ _ hlv, hc lv]
        have hcnt : (p ++ [n]).countP (fun m => lvl m.id = lv) =
            p.countP (fun m => lvl m.id = lv) := by
          rw [List.countP_append]
          simp [show ¬ (lvl n.id = lv) from fun hh => hlv hh.symm]
        rw [hcnt]
    · -- index over p ++ [n]
      intro j x hx
      rw [show (idxStep lvl acc n).2 =
          setEntry acc.2 n.id ((lookupEntry acc.1 (lvl n.id)).getD 0) from rfl]
      by_cases hj : j < p.length
      · have hxp : p[j]? = some x := by
          rw [List.getElem?_append, if_pos hj] at hx
          exact hx
        have hxmem : x ∈ p := List.getElem?_mem hxp
        have hxid : x.id ≠ n.id := by
          intro hh
          exact hnid (hh ▸ List.mem_map.mpr ⟨x, hxmem, rfl⟩)
        rw [lookupEntry_setEntry_ne _ _ _ _ hxid, hi j x hxp,
          List.take_append_of_le_length (Nat.le_of_lt hj)]
      · by_cases hj2 : j = p.length
        · subst hj2
          have hxn : x = n := by
            rw [List.getElem?_append_right (le_refl p.length)] at hx
            simp at hx
            exact hx.symm
          subst hxn
          rw [lookupEntry_setEntry_self,
            List.take_append_of_le_length (le_refl p.length), List.take_length, hcur]
        · have hnone : (p ++ [n])[j]? = none := by
            apply List.getElem?_eq_none
            simp
            omega
          rw [hnone] at hx
          exact Option.noConfusion hx
    · -- fresh ids
      intro x hx
      rw [show (idxStep lvl acc n).2 =
          setEntry acc.2 n.id ((lookupEntry acc.1 (lvl n.id)).getD 0) from rfl]
      rw [List.map_append] at hx
      have hx1 : x ∉ p.map (fun m => m.id) := fun hh => hx (List.mem_append_left _ hh)
      have hx2 : x ≠ n.id := fun hh => hx (List.mem_append_right _ (by simp [hh]))
      rw [lookupEntry_setEntry_ne _ _ _ _ hx2]
      exact hf x hx1

/-- Lookup characterization of the finished level tables, under distinct
node ids. -/
theorem buildLevelTables_lookup (lvl : String → Nat) (nodes : List ProvenanceNode)
    (hnd : (nodes.map (fun n => n.id)).Nodup) :
    (∀ lv, lookupEntry (buildLevelTables lvl nodes).1 lv =
      if nodes.countP (fun m => lvl m.id = lv) = 0 then none
      else some (nodes.countP (fun m => lvl m.id = lv)))
    ∧ (∀ (j : Nat) (x : ProvenanceNode), nodes[j]? = some x →
        lookupEntry (buildLevelTables lvl nodes).2 x.id =
          some ((nodes.take j).countP (fun m => lvl m.id = lvl x.id))) := by
  have h := foldl_idxStep_spec lvl nodes [] ([], [])
    (by simpa using hnd)
    (by intro lv; simp [lookupEntry])
    (by intro j x hx; simp at hx)
    (by intro x hx; simp [lookupEntry])
  simpa [buildLevelTables] using h

/-- `nodeCoord` unfolded: the layout's coordinate expressions through the
level map and the two tables. -/
theorem nodeCoord_eq (g : ProvenanceGraph) (n : ProvenanceNode) :
    nodeCoord g n =
      ((((lookupEntry (buildLevelTables (nodeLevel g) g.nodes).2 n.id).getD 0 : ℚ)
          - (((lookupEntry (buildLevelTables (nodeLevel g) g.nodes).1
                (nodeLevel g n.id)).getD 1 : ℚ) - 1) / 2) * NODE_WIDTH,
       ((nodeLevel g n.id : ℚ)) * ROW_HEIGHT) := rfl

/-- The coordinate formula for the node at position `j` of the node list:
`x = (i - (k - 1)/2) * NODE_WIDTH` with `i` the number of earlier nodes of
the same level and `k` the total number of nodes of that level, and
`y = level * ROW_HEIGHT`. -/
theorem nodeCoord_formula (g : ProvenanceGraph)
    (hnd : (g.nodes.map (fun n => n.id)).Nodup)
    (j : Nat) (x : ProvenanceNode) (hx : g.nodes[j]? = some x) :
    nodeCoord g x =
      ((((g.nodes.take j).countP (fun m => nodeLevel g m.id = nodeLevel g x.id) : ℚ)
          - ((g.nodes.countP (fun m => nodeLevel g m.id = nodeLevel g x.id) : ℚ) - 1) / 2)
        * NODE_WIDTH,
       (nodeLevel g x.id : ℚ) * ROW_HEIGHT) := by
  obtain ⟨hcount, hidx⟩ := buildLevelTables_lookup (nodeLevel g) g.nodes hnd
  have hxmem : x ∈ g.nodes := List.getElem?_mem hx
  have hpos : 0 < g.nodes.countP (fun m => nodeLevel g m.id = nodeLevel g x.id) :=
    List.countP_pos_iff.mpr ⟨x, hxmem, by simp⟩
  rw [nodeCoord_eq, hidx j x hx,
    hcount (nodeLevel g x.id), if_neg (by omega)]
  simp

/-- The `j`-th element of a filtered list sits at some original position `i`
with exactly `j` earlier matches. -/
theorem filter_getElem_rank {α : Type} (p : α → Bool) :
    ∀ (l : List α) (j : Nat), j < (l.filter p).length →
      ∃ (i : Nat) (x : α), l[i]? = some x ∧ (l.filter p)[j]? = some x
        ∧ (l.take i).countP p = j ∧ p x = true
  | [], j, h => by simp at h
  | a :: l, j, h => by
    by_cases hp : p a
    · rw [List.filter_cons_of_pos hp] at h
      cases j with
      | zero =>
        exact ⟨0, a, by simp, by rw [List.filter_cons_of_pos hp]; simp, by simp, hp⟩
      | succ j' =>
        obtain ⟨i, x, hget, hfget, hcnt, hpx⟩ :=
          filter_getElem_rank p l j' (by simpa using h)
        refine ⟨i + 1, x, by simpa using hget, ?_, ?_, hpx⟩
        · rw [List.filter_cons_of_pos hp]
          simpa using hfget
        · rw [List.take_succ_cons, List.countP_cons]
          simp [hp, hcnt]
    · rw [List.filter_cons_of_neg hp] at h
      obtain ⟨i, x, hget, hfget, hcnt, hpx⟩ := filter_getElem_rank p l j h
      refine ⟨i + 1, x, by simpa using hget, ?_, ?_, hpx⟩
      · rw [List.filter_cons_of_neg hp]
        exact hfget
      · rw [List.take_succ_cons, List.countP_cons]
        simp [hp, hcnt]

/-- Sum of the shifted-scaled range. -/
theorem sum_range_shift (k : Nat) (c W : ℚ) :
    ((List.range k).map (fun i : Nat => ((i : ℚ) - c) * W)).sum =
      ((k : ℚ) * ((k : ℚ) - 1) / 2 - (k : ℚ) * c) * W := by
  induction k with
  | zero => norm_num
  | succ n ih =>
    rw [List.range_succ, List.map_append, List.sum_append, ih]
    simp only [List.map_cons, List.map_nil, List.sum_cons, List.sum_nil]
    push_cast
    ring

/-- The centered row sums to zero. -/
theorem sum_range_centered (k : Nat) (W : ℚ) :
    ((List.range k).map (fun i : Nat => ((i : ℚ) - ((k : ℚ) - 1) / 2) * W)).sum = 0 := by
  rw [sum_range_shift]
  ring

/-- The centered row read backwards is its negation. -/
theorem range_centered_reverse (k : Nat) (W : ℚ) :
    ((List.range k).map (fun i : Nat => ((i : ℚ) - ((k : ℚ) - 1) / 2) * W)).reverse =
      ((List.range k).map (fun i : Nat => ((i : ℚ) - ((k : ℚ) - 1) / 2) * W)).map
        (fun x => -x) := by
  rw [← List.map_reverse, List.range_eq_range', List.reverse_range', List.map_map,
    ← List.range_eq_range', List.map_map]
  apply List.map_congr_left
  intro i hi
  have hik : i < k := List.mem_range.mp hi
  simp only [Function.comp]
  have h1 : ((0 + k - 1 - i : ℕ) : ℚ) = (k : ℚ) - 1 - (i : ℚ) := by
    have h2 : i ≤ k - 1 := by omega
    have h3 : 1 ≤ k := by omega
    have h4 : 0 + k - 1 - i = k - 1 - i := by omega
    rw [h4, Nat.cast_sub h2, Nat.cast_sub h3]
    push_cast
    ring
  rw [h1]
  ring

/-- The middle entry of an odd centered row is zero. -/
theorem range_centered_middle (k t : Nat) (W : ℚ) (h : k = 2 * t + 1) :
    ((List.range k).map (fun i : Nat => ((i : ℚ) - ((k : ℚ) - 1) / 2) * W))[t]? = some 0 := by
  subst h
  rw [List.getElem?_map, List.getElem?_range (by omega)]
  simp only [Option.map_some']
  congr 1
  push_cast
  ring

/-- The x-coordinates of a level, in node-list order, form exactly the
centered row `(i - (k - 1)/2) * NODE_WIDTH` for `i = 0, …, k-1`. -/
theorem levelXs_eq_range (g : ProvenanceGraph)
    (hnd : (g.nodes.map (fun n => n.id)).Nodup) (L : Nat) :
    levelXs g L =
      (List.range (levelXs g L).length).map
        (fun i : Nat => ((i : ℚ) - (((levelXs g L).length : ℚ) - 1) / 2) * NODE_WIDTH) := by
  have hlen : (levelXs g L).length =
      (g.nodes.filter (fun n => nodeLevel g n.id = L)).length := by
    rw [levelXs, List.length_map]
  have hcountlen : g.nodes.countP (fun n => nodeLevel g n.id = L) =
      (levelXs g L).length := by
    rw [hlen]
    exact List.countP_eq_length_filter ..
  apply List.ext_getElem?
  intro j
  by_cases hj : j < (levelXs g L).length
  · have hjF : j < (g.nodes.filter (fun n => nodeLevel g n.id = L)).length := by
      rw [← hlen]
      exact hj
    obtain ⟨i, x, hget, hfget, hcnt, hpx⟩ :=
      filter_getElem_rank (fun n => decide (nodeLevel g n.id = L)) g.nodes j hjF
    have hLx : nodeLevel g x.id = L := of_decide_eq_true hpx
    have hcoord := nodeCoord_formula g hnd i x hget
    rw [hLx] at hcoord
    have hx1 : (nodeCoord g x).1 =
        (((g.nodes.take i).countP (fun m => nodeLevel g m.id = L) : ℚ)
          - ((g.nodes.countP (fun m => nodeLevel g m.id = L) : ℚ) - 1) / 2) * NODE_WIDTH :=
      congrArg Prod.fst hcoord
    have hLHS : (levelXs g L)[j]? = some ((nodeCoord g x).1) := by
      rw [show levelXs g L =
          (g.nodes.filter (fun n => nodeLevel g n.id = L)).map (fun n => (nodeCoord g n).1)
        from rfl, List.getElem?_map, hfget, Option.map_some']
    rw [hLHS, hx1, hcnt, hcountlen, List.getElem?_map, List.getElem?_range hj,
      Option.map_some']
  · have hj1 : (levelXs g L)[j]? = none :=
      List.getElem?_eq_none (by omega)
    have hj2 : ((List.range (levelXs g L).length).map
        (fun i : Nat => ((i : ℚ) - (((levelXs g L).length : ℚ) - 1) / 2) * NODE_WIDTH))[j]? =
        none :=
      List.getElem?_eq_none (by simp; omega)
    rw [hj1, hj2]

/-! ### C5 — symmetric per-level coordinate assignment -/

/-- C5: for a graph with distinct node ids, the layout's coordinates follow
the rule `x = (i - (k - 1)/2) * NODE_WIDTH`, `y = level * ROW_HEIGHT`, where
`i` counts the earlier same-level nodes in node-list order and `k` is the
number of nodes at that level; consequently the x-coordinates of every level
form the centered row over `0, …, k-1`, their sum is 0, the row read
backwards is its negation (symmetry around 0), and for odd `k` the middle
node sits at x = 0. -/
theorem graphToFlow_coordinates (g : ProvenanceGraph)
    (hnd : (g.nodes.map (fun n => n.id)).Nodup) :
    (graphToFlowNodes g).map (fun fn => (fn.x, fn.y)) = g.nodes.map (nodeCoord g)
    ∧ (∀ (j : Nat) (x : ProvenanceNode), g.nodes[j]? = some x →
        nodeCoord g x =
          ((((g.nodes.take j).countP (fun m => nodeLevel g m.id = nodeLevel g x.id) : ℚ)
              - ((g.nodes.countP (fun m => nodeLevel g m.id = nodeLevel g x.id) : ℚ) - 1) / 2)
            * NODE_WIDTH,
           (nodeLevel g x.id : ℚ) * ROW_HEIGHT))
    ∧ (∀ L, levelXs g L =
        (List.range (levelXs g L).length).map
          (fun i : Nat => ((i : ℚ) - (((levelXs g L).length : ℚ) - 1) / 2) * NODE_WIDTH))
    ∧ (∀ L, (levelXs g L).sum = 0)
    ∧ (∀ L, (levelXs g L).reverse = (levelXs g L).map (fun x => -x))
    ∧ (∀ L t, (levelXs g L).length = 2 * t + 1 → (levelXs g L)[t]? = some 0) := by
  refine ⟨?_, fun j x hx => nodeCoord_formula g hnd j x hx,
    fun L => levelXs_eq_range g hnd L, ?_, ?_, ?_⟩
  · simp only [graphToFlowNodes, List.map_map]
    rfl
  · intro L
    rw [levelXs_eq_range g hnd L]
    exact sum_range_centered _ NODE_WIDTH
  · intro L
    rw [levelXs_eq_range g hnd L]
    exact range_centered_reverse _ NODE_WIDTH
  · intro L t ht
    rw [levelXs_eq_range g hnd L]
    exact range_centered_middle _ t NODE_WIDTH ht

/-- C5 witness: on the sample graph (levels r:0, a:1, b:2, z:0), the level-0
row sums to zero and is symmetric around 0, and the single level-1 node sits
at x = 0. -/
theorem graphToFlow_coordinates_witness :
    (levelXs sampleGraph 0).sum = 0
    ∧ (levelXs sampleGraph 0).reverse = (levelXs sampleGraph 0).map (fun x => -x)
    ∧ (levelXs sampleGraph 1)[0]? = some 0 := by
  have h := graphToFlow_coordinates sampleGraph (by decide)
  exact ⟨h.2.2.2.1 0, h.2.2.2.2.1 0, h.2.2.2.2.2 1 0 (by decide)⟩

end ImgProvenance
